import Mathlib

/-!
Detective Quest: the mansion tree of `algoritmos_avancados.c`

A shallow embedding of the C program: the room tree (`Sala`), the room
factory (`criarSala`), the interactive walk (`explorarSalas`), the release of
the tree (`liberarMansao`) and `main`, which builds the tree, walks it and
releases it.

Conventions of the embedding.
* A byte (`char`) is a `Nat`.
* A value of type `Sala *` is a `Sala`: either the null pointer `Sala.nulo`
  or a room `Sala.no nome esquerda direita`, whose `nome` is the content of
  the array `char nome[MAX_NOME]`.
* A `const char *` argument is the list of bytes found at the pointer; the
  string ends at its first zero byte, or at the end of the list when the
  list holds no zero byte (the terminator is then implicit).
* Standard input is the finite list of bytes still to be read; the empty
  list is end-of-input.
* Loops that may run forever take a `fuel` argument, one unit per
  iteration, and yield `none` when it runs out.
* The outcome of `malloc` is given per `criarSala` call of the source text:
  `aloc k` for the call number `k`, in source order from 0. Every call is
  executed at most once and in that order, so this covers every sequence of
  outcomes.
-/

namespace DetectiveQuest

/-- The constant `#define MAX_NOME 50`. -/
def MAX_NOME : Nat := 50

/-- A value of type `Sala *`: the null pointer or a room with its name array
and its two child pointers. -/
inductive Sala where
  | nulo : Sala
  | no (nome : List Nat) (esquerda : Sala) (direita : Sala) : Sala
  deriving DecidableEq

namespace Sala

/-- The test `p == NULL`. -/
def ehNulo : Sala → Bool
  | nulo => true
  | no _ _ _ => false

/-- The field access `p->nome` (the whole array). -/
def nome : Sala → List Nat
  | nulo => []
  | no n _ _ => n

/-- The field access `p->esquerda`. -/
def esquerda : Sala → Sala
  | nulo => nulo
  | no _ e _ => e

/-- The field access `p->direita`. -/
def direita : Sala → Sala
  | nulo => nulo
  | no _ _ d => d

/-- The assignment `p->esquerda = f`. -/
def atribEsquerda : Sala → Sala → Sala
  | nulo, _ => nulo
  | no n _ d, f => no n f d

/-- The assignment `p->direita = f`. -/
def atribDireita : Sala → Sala → Sala
  | nulo, _ => nulo
  | no n e _, f => no n e f

/-- A room both of whose children are absent (the test of line 63). -/
def ehFolha : Sala → Bool
  | no _ nulo nulo => true
  | _ => false

/-- Number of rooms of the tree. -/
def tamanho : Sala → Nat
  | nulo => 0
  | no _ e d => tamanho e + tamanho d + 1

/-- Number of levels of the tree: 0 for the null pointer, 1 for a single room. -/
def niveis : Sala → Nat
  | nulo => 0
  | no _ e d => max (niveis e) (niveis d) + 1

/-- The rooms of the tree, each with its depth (the root at depth `p`), in
pre-order. -/
def salasComProfundidade : Nat → Sala → List (Nat × Sala)
  | _, nulo => []
  | p, no n e d =>
    (p, no n e d) :: (salasComProfundidade (p + 1) e ++ salasComProfundidade (p + 1) d)

/-- The rooms of the tree in pre-order. -/
def salas (s : Sala) : List Sala := (salasComProfundidade 0 s).map Prod.snd

end Sala

/-- The bytes of a C string: everything before the first zero byte. -/
def cstr (mem : List Nat) : List Nat := mem.takeWhile (fun c => c != 0)

/-- The C library's `strlen`. -/
def strlen (mem : List Nat) : Nat := (cstr mem).length

/-- The `n` bytes that `strncpy(dest, src, n)` writes to `dest`: the bytes of
`src` up to `n` of them, and once the string has ended, zero bytes up to `n`. -/
def strncpy : List Nat → Nat → List Nat
  | _, 0 => []
  | [], n + 1 => 0 :: strncpy [] n
  | c :: cs, n + 1 => if c = 0 then 0 :: strncpy [] n else c :: strncpy cs n

/-- The function `criarSala`. `malloc_ok` tells whether `malloc` succeeded. On
success the 50 bytes of `nome` are the 49 written by `strncpy` followed by the
zero stored at index `MAX_NOME - 1`, and both children are null. -/
def criarSala (malloc_ok : Bool) (nome_sala : List Nat) : Sala :=
  if malloc_ok then
    Sala.no (strncpy nome_sala (MAX_NOME - 1) ++ [0]) Sala.nulo Sala.nulo
  else
    Sala.nulo

/-- The UTF-8 bytes of a string literal of the source. -/
def literal (s : String) : List Nat :=
  (s.data.flatMap String.utf8EncodeChar).map UInt8.toNat

/-- One value per `printf` call of `explorarSalas`; a name argument is the
C string that `%s` prints. -/
inductive Evento where
  | localizacao : Evento
  | nomeSala (nome : List Nat) : Evento
  | semCaminhos : Evento
  | fimExploracao : Evento
  | escolhaCaminho : Evento
  | opcaoEsquerda (nome : List Nat) : Evento
  | opcaoDireita (nome : List Nat) : Evento
  | opcaoSair : Evento
  | pedido : Evento
  | indisponivel : Evento
  | saiu : Evento
  | invalida : Evento
  deriving DecidableEq

/-- How `explorarSalas` came to return: the `break` at a leaf (line 66), the
`return` of the quit command (line 107), or the loop condition
`sala_atual != NULL` being false. -/
inductive Fim where
  | folha : Fim
  | sair : Fim
  | nulo : Fim
  deriving DecidableEq

/-- The state of `explorarSalas`: the variable `sala_atual`, the bytes still
to be read from standard input, what was printed so far, and (a ghost field)
the successive values of `sala_atual`. -/
structure Estado where
  sala_atual : Sala
  entrada : List Nat
  saida : List Evento
  visitadas : List Sala
  deriving DecidableEq

/-- The effect of `printf` calls on the state. -/
def Estado.imprimir (e : Estado) (evs : List Evento) : Estado :=
  { e with saida := e.saida ++ evs }

/-- The assignment `sala_atual = s`. -/
def Estado.mover (e : Estado) (s : Sala) : Estado :=
  { e with sala_atual := s, visitadas := e.visitadas ++ [s] }

/-- The outcome of one iteration of the loop of `explorarSalas`. -/
inductive Passo where
  | continua (e : Estado) : Passo
  | termina (f : Fim) (e : Estado) : Passo
  deriving DecidableEq

/-- The C library's `isspace` in the C locale. -/
def isspace (c : Nat) : Bool := c == 32 || (9 ≤ c && c ≤ 13)

/-- The call `scanf(" %c", &escolha)`: white space is skipped, then one byte
is stored. `some c` stands for the return value 1 with `escolha = c`, `none`
for the return value `EOF`; the second component is the input left. -/
def scanf_c : List Nat → Option Nat × List Nat
  | [] => (none, [])
  | c :: cs => if isspace c then scanf_c cs else (some c, cs)

/-- The C library's `getchar`: the next byte, or `EOF` (-1) at end of input. -/
def getchar : List Nat → Int × List Nat
  | [] => (-1, [])
  | c :: cs => ((c : Int), cs)

/-- The loop `while (getchar() != '\n');` of line 82. -/
def limparBuffer : Nat → List Nat → Option (List Nat)
  | 0, _ => none
  | fuel + 1, entrada =>
    if (getchar entrada).1 ≠ 10 then limparBuffer fuel (getchar entrada).2
    else some (getchar entrada).2

/-- The `switch (escolha)` of lines 87 to 111. -/
def navegar (escolha : Nat) (e : Estado) : Passo :=
  if escolha = 101 ∨ escolha = 69 then
    if e.sala_atual.esquerda.ehNulo = false then
      Passo.continua (e.mover e.sala_atual.esquerda)
    else
      Passo.continua (e.imprimir [Evento.indisponivel])
  else if escolha = 100 ∨ escolha = 68 then
    if e.sala_atual.direita.ehNulo = false then
      Passo.continua (e.mover e.sala_atual.direita)
    else
      Passo.continua (e.imprimir [Evento.indisponivel])
  else if escolha = 115 ∨ escolha = 83 then
    Passo.termina Fim.sair (e.imprimir [Evento.saiu])
  else
    Passo.continua (e.imprimir [Evento.invalida])

/-- The navigation options printed by lines 70 to 79. -/
def opcoes (s : Sala) : List Evento :=
  [Evento.escolhaCaminho]
    ++ (if s.esquerda.ehNulo = false then [Evento.opcaoEsquerda (cstr s.esquerda.nome)] else [])
    ++ (if s.direita.ehNulo = false then [Evento.opcaoDireita (cstr s.direita.nome)] else [])
    ++ [Evento.opcaoSair, Evento.pedido]

/-- The body of the loop of `explorarSalas` (lines 59 to 111), run with
`sala_atual` not null. `none` when the inner loop of line 82 never ends. -/
def iteracao (fuel : Nat) (e : Estado) : Option Passo :=
  let e1 := e.imprimir [Evento.localizacao, Evento.nomeSala (cstr e.sala_atual.nome)]
  if e.sala_atual.esquerda.ehNulo = true ∧ e.sala_atual.direita.ehNulo = true then
    some (Passo.termina Fim.folha (e1.imprimir [Evento.semCaminhos, Evento.fimExploracao]))
  else
    let e2 := e1.imprimir (opcoes e.sala_atual)
    match scanf_c e2.entrada with
    | (some escolha, resto) => some (navegar escolha { e2 with entrada := resto })
    | (none, resto) =>
      match limparBuffer fuel resto with
      | none => none
      | some resto2 => some (navegar 32 { e2 with entrada := resto2 })

/-- The loop of `explorarSalas` from a given state. `none` when the fuel runs
out before the function returns. -/
def explorarSalasDe : Nat → Estado → Option (Fim × Estado)
  | 0, _ => none
  | fuel + 1, e =>
    if e.sala_atual.ehNulo = true then some (Fim.nulo, e)
    else
      match iteracao fuel e with
      | none => none
      | some (Passo.termina f e1) => some (f, e1)
      | some (Passo.continua e1) => explorarSalasDe fuel e1

/-- The state in which `explorarSalas(sala)` starts. -/
def inicio (sala : Sala) (entrada : List Nat) : Estado :=
  { sala_atual := sala, entrada := entrada, saida := [], visitadas := [sala] }

/-- The function `explorarSalas`, called on `sala_atual` with `entrada` on
standard input. -/
def explorarSalas (fuel : Nat) (sala_atual : Sala) (entrada : List Nat) :
    Option (Fim × Estado) :=
  explorarSalasDe fuel (inicio sala_atual entrada)

/-- The tree construction of `main` (lines 153 to 186). `aloc k` tells whether
`malloc` succeeds in the `criarSala` call number `k` of the source text (0 for
the root), should that call be executed. The null result stands for the early
`return 1`. -/
def montarMansao (aloc : Nat → Bool) : Sala :=
  let hall_entrada := criarSala (aloc 0) (literal "Hall de Entrada")
  if hall_entrada.ehNulo = true then Sala.nulo
  else
    let h1 := hall_entrada.atribEsquerda (criarSala (aloc 1) (literal "Sala de Estar"))
    let h2 := h1.atribDireita (criarSala (aloc 2) (literal "Biblioteca"))
    let h4 :=
      if h2.esquerda.ehNulo = false then
        let h3 := h2.atribEsquerda
          (h2.esquerda.atribEsquerda (criarSala (aloc 3) (literal "Cozinha")))
        h3.atribEsquerda
          (h3.esquerda.atribDireita (criarSala (aloc 4) (literal "Quarto Principal")))
      else h2
    let h6 :=
      if h4.direita.ehNulo = false then
        let h5 := h4.atribDireita
          (h4.direita.atribEsquerda (criarSala (aloc 5) (literal "Jardim de Inverno")))
        h5.atribDireita
          (h5.direita.atribDireita (criarSala (aloc 6) (literal "Escritório")))
      else h4
    let h7 :=
      if h6.esquerda.ehNulo = false ∧ h6.esquerda.direita.ehNulo = false then
        h6.atribEsquerda (h6.esquerda.atribDireita
          (h6.esquerda.direita.atribEsquerda
            (criarSala (aloc 7) (literal "Banheiro (Secreta)"))))
      else h6
    if h7.direita.ehNulo = false ∧ h7.direita.direita.ehNulo = false then
      let h8 := h7.atribDireita (h7.direita.atribDireita
        (h7.direita.direita.atribEsquerda
          (criarSala (aloc 8) (literal "Porão (Fim do Jogo)"))))
      h8.atribDireita (h8.direita.atribDireita
        (h8.direita.direita.atribDireita (criarSala (aloc 9) (literal "Sótão"))))
    else h7

/-- The tree that `main` builds when every allocation succeeds. -/
def mansao : Sala := montarMansao (fun _ => true)

/-- A room leaf holding the given name, as `criarSala` makes it. -/
def comodo (nome : String) : Sala := criarSala true (literal nome)

/-- The function `liberarMansao`. The state is the list of the rooms already
passed to `free`, oldest first; a pointer is denoted by the room it points
to. -/
def liberarMansao : Sala → List Sala → List Sala
  | Sala.nulo, livres => livres
  | Sala.no n e d, livres => liberarMansao d (liberarMansao e livres) ++ [Sala.no n e d]

/-- Post-order traversal of a tree, as the specification words it: the whole
left subtree, then the whole right subtree, then the room itself. -/
def posOrdem : Sala → List Sala
  | Sala.nulo => []
  | Sala.no n e d => posOrdem e ++ (posOrdem d ++ [Sala.no n e d])

/-- One call of `criarSala` made by `main` (a ghost record): the argument,
whether `malloc` succeeded, and the pointer through which the result is stored
(`none` for the local variable `hall_entrada`, `some p` for a field of `*p`). -/
structure Chamada where
  nome_sala : List Nat
  sucesso : Bool
  pai : Option Sala
  deriving DecidableEq

/-- The tree construction of `main` (lines 153 to 186) together with the record
of its `criarSala` calls, in call order. The tree is the one of `montarMansao`. -/
def montarComRegistro (aloc : Nat → Bool) : Sala × List Chamada :=
  let hall_entrada := criarSala (aloc 0) (literal "Hall de Entrada")
  let r0 : List Chamada := [⟨literal "Hall de Entrada", aloc 0, none⟩]
  if hall_entrada.ehNulo = true then (Sala.nulo, r0)
  else
    let h1 := hall_entrada.atribEsquerda (criarSala (aloc 1) (literal "Sala de Estar"))
    let r1 := r0 ++ [⟨literal "Sala de Estar", aloc 1, some hall_entrada⟩]
    let h2 := h1.atribDireita (criarSala (aloc 2) (literal "Biblioteca"))
    let r2 := r1 ++ [⟨literal "Biblioteca", aloc 2, some h1⟩]
    let m4 : Sala × List Chamada :=
      if h2.esquerda.ehNulo = false then
        let h3 := h2.atribEsquerda
          (h2.esquerda.atribEsquerda (criarSala (aloc 3) (literal "Cozinha")))
        let r3 := r2 ++ [⟨literal "Cozinha", aloc 3, some h2.esquerda⟩]
        (h3.atribEsquerda
          (h3.esquerda.atribDireita (criarSala (aloc 4) (literal "Quarto Principal"))),
         r3 ++ [⟨literal "Quarto Principal", aloc 4, some h3.esquerda⟩])
      else (h2, r2)
    let m6 : Sala × List Chamada :=
      if m4.1.direita.ehNulo = false then
        let h5 := m4.1.atribDireita
          (m4.1.direita.atribEsquerda (criarSala (aloc 5) (literal "Jardim de Inverno")))
        let r5 := m4.2 ++ [⟨literal "Jardim de Inverno", aloc 5, some m4.1.direita⟩]
        (h5.atribDireita
          (h5.direita.atribDireita (criarSala (aloc 6) (literal "Escritório"))),
         r5 ++ [⟨literal "Escritório", aloc 6, some h5.direita⟩])
      else m4
    let m7 : Sala × List Chamada :=
      if m6.1.esquerda.ehNulo = false ∧ m6.1.esquerda.direita.ehNulo = false then
        (m6.1.atribEsquerda (m6.1.esquerda.atribDireita
          (m6.1.esquerda.direita.atribEsquerda
            (criarSala (aloc 7) (literal "Banheiro (Secreta)")))),
         m6.2 ++ [⟨literal "Banheiro (Secreta)", aloc 7, some m6.1.esquerda.direita⟩])
      else m6
    if m7.1.direita.ehNulo = false ∧ m7.1.direita.direita.ehNulo = false then
      let h8 := m7.1.atribDireita (m7.1.direita.atribDireita
        (m7.1.direita.direita.atribEsquerda
          (criarSala (aloc 8) (literal "Porão (Fim do Jogo)"))))
      let r8 := m7.2 ++ [⟨literal "Porão (Fim do Jogo)", aloc 8, some m7.1.direita.direita⟩]
      (h8.atribDireita (h8.direita.atribDireita
        (h8.direita.direita.atribDireita (criarSala (aloc 9) (literal "Sótão")))),
       r8 ++ [⟨literal "Sótão", aloc 9, some h8.direita.direita⟩])
    else m7

/-- What a run of `main` that returns leaves behind: the exit status, the
`criarSala` calls made, the tree at the end of the construction, the result of
the call of `explorarSalas` (`none` when it was not called), the input left
unread and the rooms passed to `free`, in order. -/
structure Execucao where
  status : Int
  chamadas : List Chamada
  hall_entrada : Sala
  exploracao : Option (Fim × Estado)
  entrada : List Nat
  liberadas : List Sala
  deriving DecidableEq

/-- The function `main`, with `entrada` on standard input; `none` when it does
not return within the fuel given. Its own `printf` calls (the banner and the
cleanup message) are not recorded. -/
def main (aloc : Nat → Bool) (fuel : Nat) (entrada : List Nat) : Option Execucao :=
  let m := montarComRegistro aloc
  if m.1.ehNulo = true then
    some { status := 1, chamadas := m.2, hall_entrada := m.1, exploracao := none,
           entrada := entrada, liberadas := [] }
  else
    match explorarSalas fuel m.1 entrada with
    | none => none
    | some r =>
      some { status := 0, chamadas := m.2, hall_entrada := m.1, exploracao := some r,
             entrada := r.2.entrada, liberadas := liberarMansao m.1 [] }

/-- A change of position as the specification words it: `b` is a room and is
one of the children of `a`. -/
def ehFilho (a b : Sala) : Prop :=
  b.ehNulo = false ∧ (b = a.esquerda ∨ b = a.direita)

instance (a b : Sala) : Decidable (ehFilho a b) := by
  unfold ehFilho
  exact inferInstance

/-- The six command bytes `e`, `E`, `d`, `D`, `s`, `S`. -/
def ehComando (c : Nat) : Bool :=
  c == 101 || c == 69 || c == 100 || c == 68 || c == 115 || c == 83

/-- The input with every byte that is not a command deleted. -/
def filtrar (entrada : List Nat) : List Nat := entrada.filter ehComando

/-- The outcome of a session that returned: how it ended, the final position
and the sequence of positions. -/
def resumo (r : Fim × Estado) : Fim × Sala × List Sala :=
  (r.1, r.2.sala_atual, r.2.visitadas)

/-- The number of the `criarSala` call whose result `main` stores at a given
path from `hall_entrada` (`false` for `->esquerda`, `true` for `->direita`);
`none` for a path at which `main` stores nothing. -/
def sitioDoCaminho : List Bool → Option Nat
  | [] => some 0
  | [false] => some 1
  | [true] => some 2
  | [false, false] => some 3
  | [false, true] => some 4
  | [true, false] => some 5
  | [true, true] => some 6
  | [false, true, false] => some 7
  | [true, true, false] => some 8
  | [true, true, true] => some 9
  | _ => none

/-- Whether the allocation of the room that `main` stores at the given path
fails under the pattern `aloc`. -/
def falhou (aloc : Nat → Bool) (caminho : List Bool) : Bool :=
  match sitioDoCaminho caminho with
  | some k => !aloc k
  | none => false

/-- The tree with the subtrees under the failed rooms removed, as the
specification words it: a failed room goes, with everything beneath it.
`caminho` is the path of the root of the tree given. -/
def podar (aloc : Nat → Bool) : List Bool → Sala → Sala
  | _, Sala.nulo => Sala.nulo
  | caminho, Sala.no n e d =>
    if falhou aloc caminho then Sala.nulo
    else Sala.no n (podar aloc (caminho ++ [false]) e) (podar aloc (caminho ++ [true]) d)

/-- The state at the head of the loop of `explorarSalas` after `n` iterations
that went on, when the loop gets that far. -/
def aposIteracoes (fuel : Nat) : Nat → Estado → Option Estado
  | 0, e => some e
  | n + 1, e =>
    if e.sala_atual.ehNulo = true then none
    else
      match iteracao fuel e with
      | some (Passo.continua e1) => aposIteracoes fuel n e1
      | _ => none

/-- The rooms of the tree at depth `k`, left to right. -/
def noNivel : Nat → Sala → List Sala
  | _, Sala.nulo => []
  | 0, Sala.no n e d => [Sala.no n e d]
  | k + 1, Sala.no _ e d => noNivel k e ++ noNivel k d

/-- The rooms of the tree level by level, from the root down. -/
def emNiveis (s : Sala) : List Sala := (List.range s.niveis).flatMap (fun k => noNivel k s)

/-- The room as it was when `criarSala` returned it: the same name array and
no children yet. -/
def Sala.semFilhos : Sala → Sala
  | Sala.nulo => Sala.nulo
  | Sala.no n _ _ => Sala.no n Sala.nulo Sala.nulo

/-- The pointer reached from `s` along a path (`false` for `->esquerda`, `true`
for `->direita`). -/
def Sala.seguir : List Bool → Sala → Sala
  | [], s => s
  | false :: resto, s => Sala.seguir resto s.esquerda
  | true :: resto, s => Sala.seguir resto s.direita

/-- A sequence of positions that only goes down, as the specification words
it: it starts at the root, every change goes from a room to one of its own
children, no room occurs twice, the room at index `i` is at depth `i` of the
tree, and there are no more positions than the tree has levels. -/
def Descida (raiz : Sala) (vis : List Sala) : Prop :=
  vis.head? = some raiz
  ∧ List.Chain' ehFilho vis
  ∧ vis.Nodup
  ∧ (∀ i s, vis[i]? = some s → (i, s) ∈ Sala.salasComProfundidade 0 raiz)
  ∧ vis.length ≤ raiz.niveis

/-- The session from the state `e` returns, given enough fuel, with the
outcome `x`. -/
def terminaCom (e : Estado) (x : Fim × Sala × List Sala) : Prop :=
  ∃ fuel, (explorarSalasDe fuel e).map resumo = some x

/-- The session from the state `e` gets, after some number of iterations, to
the position and the sequence of positions `p`. -/
def alcanca (e : Estado) (p : Sala × List Sala) : Prop :=
  ∃ fuel n e1, aposIteracoes fuel n e = some e1 ∧ (e1.sala_atual, e1.visitadas) = p

/-! ## Auxiliary facts -/

theorem cstr_strncpy_zero (src : List Nat) (n : Nat) :
    cstr (strncpy src n ++ [0]) = (cstr src).take n := by
  induction n generalizing src with
  | zero => simp [strncpy, cstr]
  | succ n ih =>
    cases src with
    | nil => simp [strncpy, cstr]
    | cons c cs =>
      by_cases hc : c = 0
      · simp [strncpy, cstr, hc]
      · have h := ih cs
        simp only [cstr] at h
        simp [strncpy, cstr, hc, h]

theorem length_strncpy (src : List Nat) (n : Nat) : (strncpy src n).length = n := by
  induction n generalizing src with
  | zero => simp [strncpy]
  | succ n ih =>
    cases src with
    | nil => simp [strncpy, ih]
    | cons c cs =>
      by_cases hc : c = 0
      · simp [strncpy, hc, ih]
      · simp [strncpy, hc, ih]

theorem strncpy_of_long (src : List Nat) (n : Nat) (h : n ≤ strlen src) :
    strncpy src n = (cstr src).take n := by
  induction n generalizing src with
  | zero => simp [strncpy]
  | succ n ih =>
    cases src with
    | nil => simp [strlen, cstr] at h
    | cons c cs =>
      by_cases hc : c = 0
      · simp [strlen, cstr, hc] at h
      · have h2 : n ≤ strlen cs := by
          simp [strlen, cstr, hc] at h
          simpa [strlen, cstr] using h
        have h3 := ih cs h2
        simp only [cstr] at h3
        simp [strncpy, cstr, hc, h3]

theorem take_cstr (src : List Nat) (n : Nat) (h : n ≤ strlen src) :
    (cstr src).take n = src.take n := by
  induction n generalizing src with
  | zero => simp
  | succ n ih =>
    cases src with
    | nil => simp [cstr]
    | cons c cs =>
      by_cases hc : c = 0
      · simp [strlen, cstr, hc] at h
      · have h2 : n ≤ strlen cs := by
          simp [strlen, cstr, hc] at h
          simpa [strlen, cstr] using h
        have h3 := ih cs h2
        simp only [cstr] at h3
        simp [cstr, hc, h3]

theorem scanf_c_espacos (ws resto : List Nat) (hws : ws.all isspace = true) :
    scanf_c (ws ++ resto) = scanf_c resto := by
  induction ws with
  | nil => rfl
  | cons w ws ih =>
    simp only [List.all_cons, Bool.and_eq_true] at hws
    simp [scanf_c, hws.1, ih hws.2]

theorem limparBuffer_fim_da_entrada (fuel : Nat) : limparBuffer fuel [] = none := by
  induction fuel with
  | zero => rfl
  | succ n ih => simp [limparBuffer, getchar, ih]

theorem nao_folha (s : Sala) (hn : s.ehNulo = false) (hf : s.ehFolha = false) :
    ¬ (s.esquerda.ehNulo = true ∧ s.direita.ehNulo = true) := by
  cases s with
  | nulo => simp [Sala.ehNulo] at hn
  | no n e d =>
    cases e <;> cases d <;> simp_all [Sala.ehFolha, Sala.esquerda, Sala.direita, Sala.ehNulo]

/-- One iteration at a room with a child, when the input holds white space and
then a byte that is not white space: that byte is the choice. -/
theorem iteracao_escolha (fuel : Nat) (s : Sala) (ws resto : List Nat) (c : Nat)
    (saida : List Evento) (vis : List Sala)
    (hn : s.ehNulo = false) (hf : s.ehFolha = false)
    (hws : ws.all isspace = true) (hc : isspace c = false) :
    iteracao fuel ⟨s, ws ++ c :: resto, saida, vis⟩ =
      some (navegar c ⟨s, resto,
        saida ++ [Evento.localizacao, Evento.nomeSala (cstr s.nome)] ++ opcoes s, vis⟩) := by
  have h := nao_folha s hn hf
  have hs : scanf_c (ws ++ c :: resto) = (some c, resto) := by
    rw [scanf_c_espacos ws _ hws]
    simp [scanf_c, hc]
  simp only [iteracao, Estado.imprimir, h, if_false, hs]

theorem explorarSalasDe_em_folha (fuel : Nat) (s : Sala) (entrada : List Nat)
    (saida : List Evento) (vis : List Sala) (hf : s.ehFolha = true) :
    explorarSalasDe (fuel + 1) ⟨s, entrada, saida, vis⟩ =
      some (Fim.folha, ⟨s, entrada,
        saida ++ [Evento.localizacao, Evento.nomeSala (cstr s.nome),
          Evento.semCaminhos, Evento.fimExploracao], vis⟩) := by
  cases s with
  | nulo => simp [Sala.ehFolha] at hf
  | no n a b =>
    cases a <;> cases b <;> simp [Sala.ehFolha] at hf
    simp [explorarSalasDe, iteracao, Estado.imprimir, Sala.ehNulo, Sala.esquerda, Sala.direita,
      Sala.nome]

theorem length_salasComProfundidade (p : Nat) (s : Sala) :
    (Sala.salasComProfundidade p s).length = s.tamanho := by
  induction s generalizing p with
  | nulo => rfl
  | no n e d ihe ihd =>
    simp [Sala.salasComProfundidade, Sala.tamanho, ihe, ihd]

theorem navegar_nao_nulo (c : Nat) (e : Estado) (hn : e.sala_atual.ehNulo = false) :
    (∀ e1, navegar c e = Passo.continua e1 → e1.sala_atual.ehNulo = false)
    ∧ (∀ f e1, navegar c e = Passo.termina f e1 →
        e1.sala_atual.ehNulo = false ∧ f = Fim.sair) := by
  unfold navegar
  constructor
  · intro e1 h
    split_ifs at h with h1 h2 h3 h4 h5 <;>
      simp only [Passo.continua.injEq] at h <;> subst h <;>
      simp_all [Estado.mover, Estado.imprimir]
  · intro f e1 h
    split_ifs at h with h1 h2 h3 h4 h5
    simp only [Passo.termina.injEq] at h
    obtain ⟨hf, he⟩ := h
    subst hf he
    simp_all [Estado.imprimir]

theorem iteracao_nao_nulo (fuel : Nat) (e : Estado) (hn : e.sala_atual.ehNulo = false) :
    (∀ e1, iteracao fuel e = some (Passo.continua e1) → e1.sala_atual.ehNulo = false)
    ∧ (∀ f e1, iteracao fuel e = some (Passo.termina f e1) →
        e1.sala_atual.ehNulo = false ∧ f ≠ Fim.nulo) := by
  have key : ∀ (c : Nat) (e0 : Estado), e0.sala_atual = e.sala_atual →
      (∀ e1, some (navegar c e0) = some (Passo.continua e1) → e1.sala_atual.ehNulo = false)
      ∧ (∀ f e1, some (navegar c e0) = some (Passo.termina f e1) →
          e1.sala_atual.ehNulo = false ∧ f ≠ Fim.nulo) := by
    intro c e0 h0
    have hn0 : e0.sala_atual.ehNulo = false := by rw [h0]; exact hn
    have := navegar_nao_nulo c e0 hn0
    constructor
    · intro e1 h
      exact this.1 e1 (Option.some.inj h)
    · intro f e1 h
      have h2 := this.2 f e1 (Option.some.inj h)
      exact ⟨h2.1, by rw [h2.2]; decide⟩
  unfold iteracao
  simp only
  split_ifs with hl
  · constructor
    · intro e1 h
      simp at h
    · intro f e1 h
      simp only [Option.some.injEq, Passo.termina.injEq] at h
      obtain ⟨hf, he⟩ := h
      subst hf he
      exact ⟨hn, by decide⟩
  · split
    · exact key _ _ rfl
    · split
      · constructor
        · intro e1 h
          simp at h
        · intro f e1 h
          simp at h
      · exact key _ _ rfl

theorem montarComRegistro_fst (aloc : Nat → Bool) :
    (montarComRegistro aloc).1 = montarMansao aloc := by
  unfold montarComRegistro montarMansao
  generalize aloc 0 = b0
  generalize aloc 1 = b1
  generalize aloc 2 = b2
  generalize aloc 3 = b3
  generalize aloc 4 = b4
  generalize aloc 5 = b5
  generalize aloc 6 = b6
  generalize aloc 7 = b7
  generalize aloc 8 = b8
  generalize aloc 9 = b9
  cases b0 <;> cases b1 <;> cases b2 <;> cases b3 <;> cases b4 <;> cases b5 <;> cases b6 <;>
    cases b7 <;> cases b8 <;> cases b9 <;> rfl

theorem liberarMansao_eq (raiz : Sala) (livres : List Sala) :
    liberarMansao raiz livres = livres ++ posOrdem raiz := by
  induction raiz generalizing livres with
  | nulo => simp [liberarMansao, posOrdem]
  | no n e d ihe ihd => simp [liberarMansao, posOrdem, ihe, ihd]

theorem length_posOrdem (s : Sala) : (posOrdem s).length = s.tamanho := by
  induction s with
  | nulo => rfl
  | no n e d ihe ihd => simp [posOrdem, Sala.tamanho, ihe, ihd]; omega

theorem perm_posOrdem (p : Nat) (s : Sala) :
    (posOrdem s).Perm ((Sala.salasComProfundidade p s).map Prod.snd) := by
  induction s generalizing p with
  | nulo => simp [posOrdem, Sala.salasComProfundidade]
  | no n e d ihe ihd =>
    simp only [posOrdem, Sala.salasComProfundidade, List.map_cons, List.map_append]
    rw [← List.append_assoc]
    exact (List.perm_append_singleton _ _).trans
      (List.Perm.cons _ ((ihe (p + 1)).append (ihd (p + 1))))

theorem mansao_eq :
    mansao =
      Sala.no (comodo "Hall de Entrada").nome
        (Sala.no (comodo "Sala de Estar").nome
          (comodo "Cozinha")
          (Sala.no (comodo "Quarto Principal").nome (comodo "Banheiro (Secreta)") Sala.nulo))
        (Sala.no (comodo "Biblioteca").nome
          (comodo "Jardim de Inverno")
          (Sala.no (comodo "Escritório").nome
            (comodo "Porão (Fim do Jogo)") (comodo "Sótão"))) := by
  decide

/-- The pruned tree of `main`, written out. -/
theorem podar_mansao (aloc : Nat → Bool) :
    podar aloc [] mansao =
      if aloc 0 then
        Sala.no (comodo "Hall de Entrada").nome
          (if aloc 1 then
            Sala.no (comodo "Sala de Estar").nome
              (if aloc 3 then comodo "Cozinha" else Sala.nulo)
              (if aloc 4 then
                Sala.no (comodo "Quarto Principal").nome
                  (if aloc 7 then comodo "Banheiro (Secreta)" else Sala.nulo) Sala.nulo
               else Sala.nulo)
           else Sala.nulo)
          (if aloc 2 then
            Sala.no (comodo "Biblioteca").nome
              (if aloc 5 then comodo "Jardim de Inverno" else Sala.nulo)
              (if aloc 6 then
                Sala.no (comodo "Escritório").nome
                  (if aloc 8 then comodo "Porão (Fim do Jogo)" else Sala.nulo)
                  (if aloc 9 then comodo "Sótão" else Sala.nulo)
               else Sala.nulo)
           else Sala.nulo)
      else Sala.nulo := by
  rw [mansao_eq]
  simp only [podar, falhou, sitioDoCaminho, List.nil_append, List.cons_append, comodo, criarSala,
    if_true]
  generalize aloc 0 = b0
  generalize aloc 1 = b1
  generalize aloc 2 = b2
  generalize aloc 3 = b3
  generalize aloc 4 = b4
  generalize aloc 5 = b5
  generalize aloc 6 = b6
  generalize aloc 7 = b7
  generalize aloc 8 = b8
  generalize aloc 9 = b9
  cases b0 <;> cases b1 <;> cases b2 <;> cases b3 <;> cases b4 <;> cases b5 <;> cases b6 <;>
    cases b7 <;> cases b8 <;> cases b9 <;> rfl

/-- The tree that `main` builds is the tree of the all-success run pruned at
the failed rooms. -/
theorem montar_arvore (aloc : Nat → Bool) (h : aloc 0 = true) :
    (montarComRegistro aloc).1 = podar aloc [] mansao := by
  rw [podar_mansao]
  unfold montarComRegistro
  rw [h]
  generalize aloc 1 = b1
  generalize aloc 2 = b2
  generalize aloc 3 = b3
  generalize aloc 4 = b4
  generalize aloc 5 = b5
  generalize aloc 6 = b6
  generalize aloc 7 = b7
  generalize aloc 8 = b8
  generalize aloc 9 = b9
  cases b1 <;> [skip; (cases b3 <;> (cases b4 <;> [skip; cases b7]))] <;>
    (cases b2 <;> [skip; (cases b5 <;> (cases b6 <;> [skip; (cases b8 <;> cases b9)]))]) <;>
    rfl

set_option maxHeartbeats 2000000 in
/-- Every `criarSala` call of `main` stores its result through a pointer that
is not null, and the rooms created, in call order, are the rooms of the final
tree level by level. -/
theorem montar_registro (aloc : Nat → Bool) (h : aloc 0 = true) :
    ((montarComRegistro aloc).2.all
        (fun c => match c.pai with
          | none => true
          | some p => !p.ehNulo)) = true
    ∧ ((montarComRegistro aloc).2.filter (fun c => c.sucesso)).map
        (fun c => criarSala true c.nome_sala)
      = (emNiveis (montarComRegistro aloc).1).map Sala.semFilhos := by
  unfold montarComRegistro
  rw [h]
  generalize aloc 1 = b1
  generalize aloc 2 = b2
  generalize aloc 3 = b3
  generalize aloc 4 = b4
  generalize aloc 5 = b5
  generalize aloc 6 = b6
  generalize aloc 7 = b7
  generalize aloc 8 = b8
  generalize aloc 9 = b9
  cases b1 <;> [skip; (cases b3 <;> (cases b4 <;> [skip; cases b7]))] <;>
    (cases b2 <;> [skip; (cases b5 <;> (cases b6 <;> [skip; (cases b8 <;> cases b9)]))]) <;>
    exact ⟨rfl, rfl⟩

theorem noNivel_nulo (k : Nat) : noNivel k Sala.nulo = [] := by
  cases k <;> rfl

theorem perm_niveis (s : Sala) (n : Nat) (h : s.niveis ≤ n) :
    ((List.range n).flatMap (fun k => noNivel k s)).Perm (posOrdem s) := by
  induction s generalizing n with
  | nulo => simp [noNivel_nulo, posOrdem]
  | no nm e d ihe ihd =>
    cases n with
    | zero => simp [Sala.niveis] at h
    | succ m =>
      have he : e.niveis ≤ m := by simp [Sala.niveis] at h; omega
      have hd : d.niveis ≤ m := by simp [Sala.niveis] at h; omega
      rw [List.range_succ_eq_map, List.flatMap_cons, List.flatMap_map]
      simp only [noNivel]
      have h1 := (List.flatMap_append_perm (List.range m)
        (fun k => noNivel k e) (fun k => noNivel k d)).symm
      have h2 := h1.trans ((ihe m he).append (ihd m hd))
      simp only [posOrdem]
      rw [← List.append_assoc]
      exact ((List.Perm.cons _ h2).trans (List.perm_append_singleton _ _).symm)

theorem perm_emNiveis (s : Sala) : (emNiveis s).Perm (posOrdem s) :=
  perm_niveis s s.niveis (le_refl _)

theorem montarComRegistro_raiz_falha (aloc : Nat → Bool) (h : aloc 0 = false) :
    montarComRegistro aloc = (Sala.nulo, [⟨literal "Hall de Entrada", false, none⟩]) := by
  simp [montarComRegistro, h, criarSala, Sala.ehNulo]

theorem montarComRegistro_raiz_nao_nula (aloc : Nat → Bool) (h : aloc 0 = true) :
    (montarComRegistro aloc).1.ehNulo = false := by
  rw [montar_arvore aloc h, podar_mansao, h]
  rfl

theorem seguir_nulo (p : List Bool) : Sala.seguir p Sala.nulo = Sala.nulo := by
  induction p with
  | nil => rfl
  | cons b p ih => cases b <;> simpa [Sala.seguir, Sala.esquerda, Sala.direita] using ih

theorem seguir_podar_falhou (aloc : Nat → Bool) (p c : List Bool) (t : Sala)
    (h : falhou aloc (c ++ p) = true) : Sala.seguir p (podar aloc c t) = Sala.nulo := by
  induction p generalizing c t with
  | nil =>
    cases t with
    | nulo => rfl
    | no n e d =>
      simp only [List.append_nil] at h
      simp [Sala.seguir, podar, h]
  | cons b p ih =>
    cases t with
    | nulo => simpa [podar] using seguir_nulo (b :: p)
    | no n e d =>
      by_cases hf : falhou aloc c = true
      · simpa [podar, hf] using seguir_nulo (b :: p)
      · have h2 : falhou aloc ((c ++ [b]) ++ p) = true := by simpa using h
        cases b
        · simpa [podar, hf, Sala.seguir, Sala.esquerda] using ih (c ++ [false]) e h2
        · simpa [podar, hf, Sala.seguir, Sala.direita] using ih (c ++ [true]) d h2

theorem main_de_raiz_alocada (aloc : Nat → Bool) (fuel : Nat) (entrada : List Nat)
    (h : aloc 0 = true) :
    main aloc fuel entrada =
      (explorarSalas fuel (montarComRegistro aloc).1 entrada).map
        (fun r => { status := 0, chamadas := (montarComRegistro aloc).2,
                    hall_entrada := (montarComRegistro aloc).1, exploracao := some r,
                    entrada := r.2.entrada,
                    liberadas := posOrdem (montarComRegistro aloc).1 }) := by
  have hn := montarComRegistro_raiz_nao_nula aloc h
  simp only [main, hn, liberarMansao_eq, List.nil_append]
  cases explorarSalas fuel (montarComRegistro aloc).1 entrada <;> simp

theorem entrada_casos (entrada : List Nat) :
    entrada.all isspace = true
    ∨ ∃ ws c resto, entrada = ws ++ c :: resto ∧ ws.all isspace = true ∧ isspace c = false := by
  induction entrada with
  | nil => exact Or.inl rfl
  | cons a as ih =>
    by_cases ha : isspace a = true
    · rcases ih with h | ⟨ws, c, resto, h1, h2, h3⟩
      · exact Or.inl (by simp [ha, h])
      · exact Or.inr ⟨a :: ws, c, resto, by simp [h1], by simp [ha, h2], h3⟩
    · exact Or.inr ⟨[], a, as, rfl, rfl, by simpa using ha⟩

theorem iteracao_fim_da_entrada (fuel : Nat) (s : Sala) (ws : List Nat)
    (saida : List Evento) (vis : List Sala)
    (hn : s.ehNulo = false) (hf : s.ehFolha = false) (hws : ws.all isspace = true) :
    iteracao fuel ⟨s, ws, saida, vis⟩ = none := by
  have h := nao_folha s hn hf
  have hs : scanf_c ws = (none, []) := by
    have := scanf_c_espacos ws [] hws
    simpa [scanf_c] using this
  simp only [iteracao, Estado.imprimir, h, hs, limparBuffer_fim_da_entrada]
  simp

theorem iteracao_na_folha (fuel : Nat) (s : Sala) (entrada : List Nat)
    (saida : List Evento) (vis : List Sala) (hf : s.ehFolha = true) :
    iteracao fuel ⟨s, entrada, saida, vis⟩ =
      some (Passo.termina Fim.folha ⟨s, entrada,
        saida ++ [Evento.localizacao, Evento.nomeSala (cstr s.nome),
          Evento.semCaminhos, Evento.fimExploracao], vis⟩) := by
  cases s with
  | nulo => simp [Sala.ehFolha] at hf
  | no n a b =>
    cases a <;> cases b <;> simp [Sala.ehFolha] at hf
    simp [iteracao, Estado.imprimir, Sala.ehNulo, Sala.esquerda, Sala.direita, Sala.nome]

/-- What one iteration at a room does, by cases on the room and the input. -/
theorem iteracao_casos (fuel : Nat) (s : Sala) (entrada : List Nat)
    (saida : List Evento) (vis : List Sala) (hn : s.ehNulo = false) :
    (s.ehFolha = true ∧
      iteracao fuel ⟨s, entrada, saida, vis⟩ =
        some (Passo.termina Fim.folha ⟨s, entrada,
          saida ++ [Evento.localizacao, Evento.nomeSala (cstr s.nome),
            Evento.semCaminhos, Evento.fimExploracao], vis⟩))
    ∨ (s.ehFolha = false ∧ ∃ ws c resto, entrada = ws ++ c :: resto
        ∧ ws.all isspace = true ∧ isspace c = false
        ∧ iteracao fuel ⟨s, entrada, saida, vis⟩ =
          some (navegar c ⟨s, resto,
            saida ++ [Evento.localizacao, Evento.nomeSala (cstr s.nome)] ++ opcoes s, vis⟩))
    ∨ (s.ehFolha = false ∧ entrada.all isspace = true
        ∧ iteracao fuel ⟨s, entrada, saida, vis⟩ = none) := by
  cases hf : s.ehFolha with
  | true => exact Or.inl ⟨rfl, iteracao_na_folha fuel s entrada saida vis hf⟩
  | false =>
    rcases entrada_casos entrada with h | ⟨ws, c, resto, h1, h2, h3⟩
    · exact Or.inr (Or.inr ⟨rfl, h, iteracao_fim_da_entrada fuel s entrada saida vis hn hf h⟩)
    · refine Or.inr (Or.inl ⟨rfl, ws, c, resto, h1, h2, h3, ?_⟩)
      rw [h1]
      exact iteracao_escolha fuel s ws resto c saida vis hn hf h2 h3

/-- What the `switch` does: it moves to a child that is present, or prints one
message and stays, or (on `s` or `S` only) ends the session. -/
theorem navegar_casos (c : Nat) (e0 : Estado) :
    (∃ filho, ehFilho e0.sala_atual filho ∧ navegar c e0 = Passo.continua (e0.mover filho))
    ∨ (∃ ev, navegar c e0 = Passo.continua (e0.imprimir [ev]))
    ∨ ((c = 115 ∨ c = 83) ∧ navegar c e0 = Passo.termina Fim.sair (e0.imprimir [Evento.saiu])) := by
  unfold navegar
  split_ifs with h1 h2 h3 h4 h5
  · exact Or.inl ⟨_, ⟨h2, Or.inl rfl⟩, rfl⟩
  · exact Or.inr (Or.inl ⟨_, rfl⟩)
  · exact Or.inl ⟨_, ⟨h4, Or.inr rfl⟩, rfl⟩
  · exact Or.inr (Or.inl ⟨_, rfl⟩)
  · exact Or.inr (Or.inr ⟨h5, rfl⟩)
  · exact Or.inr (Or.inl ⟨_, rfl⟩)

/-- The loop started at a room, one iteration unfolded. -/
theorem explorarSalasDe_succ (fuel : Nat) (e : Estado) (hn : e.sala_atual.ehNulo = false) :
    explorarSalasDe (fuel + 1) e =
      match iteracao fuel e with
      | none => none
      | some (Passo.termina f e1) => some (f, e1)
      | some (Passo.continua e1) => explorarSalasDe fuel e1 := by
  rw [explorarSalasDe]
  simp [hn]

theorem ehFilho_tamanho (a b : Sala) (h : ehFilho a b) : b.tamanho < a.tamanho := by
  obtain ⟨hb, h1 | h1⟩ := h
  · cases a with
    | nulo => subst h1; simp [Sala.esquerda, Sala.ehNulo] at hb
    | no n e d => subst h1; simp [Sala.esquerda, Sala.tamanho]; omega
  · cases a with
    | nulo => subst h1; simp [Sala.direita, Sala.ehNulo] at hb
    | no n e d => subst h1; simp [Sala.direita, Sala.tamanho]; omega

theorem ehFilho_niveis (a b : Sala) (h : ehFilho a b) : b.niveis + 1 ≤ a.niveis := by
  obtain ⟨hb, h1 | h1⟩ := h
  · cases a with
    | nulo => subst h1; simp [Sala.esquerda, Sala.ehNulo] at hb
    | no n e d => subst h1; simp [Sala.esquerda, Sala.niveis]
  · cases a with
    | nulo => subst h1; simp [Sala.direita, Sala.ehNulo] at hb
    | no n e d => subst h1; simp [Sala.direita, Sala.niveis]

theorem ehFilho_salas (a b : Sala) (h : ehFilho a b) (p : Nat) (x : Nat × Sala)
    (hx : x ∈ Sala.salasComProfundidade (p + 1) b) : x ∈ Sala.salasComProfundidade p a := by
  obtain ⟨hb, h1 | h1⟩ := h
  · cases a with
    | nulo => subst h1; simp [Sala.esquerda, Sala.ehNulo] at hb
    | no n e d =>
      simp only [Sala.esquerda] at h1
      subst h1
      simp [Sala.salasComProfundidade, hx]
  · cases a with
    | nulo => subst h1; simp [Sala.direita, Sala.ehNulo] at hb
    | no n e d =>
      simp only [Sala.direita] at h1
      subst h1
      simp [Sala.salasComProfundidade, hx]

theorem raiz_em_salas (a : Sala) (p : Nat) (h : a.ehNulo = false) :
    (p, a) ∈ Sala.salasComProfundidade p a := by
  cases a with
  | nulo => simp [Sala.ehNulo] at h
  | no n e d => simp [Sala.salasComProfundidade]

theorem cadeia_profundidade (l : List Sala) (a : Sala) (p : Nat)
    (ha : a.ehNulo = false) (hc : List.Chain' ehFilho (a :: l)) :
    ∀ i s, (a :: l)[i]? = some s → (p + i, s) ∈ Sala.salasComProfundidade p a := by
  induction l generalizing a p with
  | nil =>
    intro i s hi
    cases i with
    | zero =>
      simp only [List.getElem?_cons_zero, Option.some.injEq] at hi
      subst hi
      exact raiz_em_salas a p ha
    | succ i => simp at hi
  | cons b l ih =>
    intro i s hi
    cases i with
    | zero =>
      simp only [List.getElem?_cons_zero, Option.some.injEq] at hi
      subst hi
      exact raiz_em_salas a p ha
    | succ i =>
      rw [List.getElem?_cons_succ] at hi
      have hab : ehFilho a b := (List.chain'_cons.mp hc).1
      have := ih b (p + 1) hab.1 (List.chain'_cons.mp hc).2 i s hi
      have h2 : p + 1 + i = p + (i + 1) := by omega
      rw [h2] at this
      exact ehFilho_salas a b hab p _ this

theorem cadeia_comprimento (l : List Sala) (a : Sala)
    (ha : a.ehNulo = false) (hc : List.Chain' ehFilho (a :: l)) :
    (a :: l).length ≤ a.niveis := by
  induction l generalizing a with
  | nil =>
    cases a with
    | nulo => simp [Sala.ehNulo] at ha
    | no n e d => simp [Sala.niveis]
  | cons b l ih =>
    have hab : ehFilho a b := (List.chain'_cons.mp hc).1
    have h1 := ih b hab.1 (List.chain'_cons.mp hc).2
    have h2 := ehFilho_niveis a b hab
    simp only [List.length_cons] at h1 ⊢
    omega

theorem cadeia_nodup (l : List Sala) (hc : List.Chain' ehFilho l) : l.Nodup := by
  have h1 : List.Chain' (fun a b : Sala => b.tamanho < a.tamanho) l :=
    hc.imp ehFilho_tamanho
  haveI : IsTrans Sala (fun a b : Sala => b.tamanho < a.tamanho) :=
    ⟨fun _ _ _ hab hbc => lt_trans hbc hab⟩
  have h2 := List.chain'_iff_pairwise.mp h1
  exact h2.imp (fun hlt heq => by subst heq; exact lt_irrefl _ hlt)

/-- The invariant of the loop on the ghost trace: it starts at the root, ends
at the current position and goes from a room to one of its children. -/
theorem navegar_cadeia (c : Nat) (e0 : Estado) (raiz : Sala)
    (h1 : e0.visitadas.head? = some raiz) (h2 : e0.visitadas.getLast? = some e0.sala_atual)
    (h3 : List.Chain' ehFilho e0.visitadas) :
    ∀ p, (∃ f, navegar c e0 = Passo.termina f p) ∨ navegar c e0 = Passo.continua p →
      p.visitadas.head? = some raiz ∧ p.visitadas.getLast? = some p.sala_atual
      ∧ List.Chain' ehFilho p.visitadas := by
  intro p hp
  have hmov : ∀ filho, ehFilho e0.sala_atual filho →
      (e0.mover filho).visitadas.head? = some raiz
      ∧ (e0.mover filho).visitadas.getLast? = some (e0.mover filho).sala_atual
      ∧ List.Chain' ehFilho (e0.mover filho).visitadas := by
    intro filho hfilho
    simp only [Estado.mover]
    refine ⟨?_, by simp, ?_⟩
    · cases hv : e0.visitadas with
      | nil => rw [hv] at h1; simp at h1
      | cons a l => rw [hv] at h1; simpa using h1
    · apply List.Chain'.append h3 (List.chain'_singleton _)
      intro x hx y hy
      rw [h2] at hx
      simp only [Option.mem_def, Option.some.injEq] at hx
      simp only [List.head?_cons, Option.mem_def, Option.some.injEq] at hy
      subst hx hy
      exact hfilho
  rcases navegar_casos c e0 with ⟨filho, hfilho, hnav⟩ | ⟨ev, hnav⟩ | ⟨_, hnav⟩
  · rw [hnav] at hp
    rcases hp with ⟨f, hp⟩ | hp
    · simp at hp
    · simp only [Passo.continua.injEq] at hp
      subst hp
      exact hmov filho hfilho
  · rw [hnav] at hp
    rcases hp with ⟨f, hp⟩ | hp
    · simp at hp
    · simp only [Passo.continua.injEq] at hp
      subst hp
      exact ⟨h1, h2, h3⟩
  · rw [hnav] at hp
    rcases hp with ⟨f, hp⟩ | hp
    · simp only [Passo.termina.injEq] at hp
      obtain ⟨_, hp⟩ := hp
      subst hp
      exact ⟨h1, h2, h3⟩
    · simp at hp

theorem iteracao_cadeia (fuel : Nat) (e : Estado) (raiz : Sala)
    (hn : e.sala_atual.ehNulo = false)
    (h1 : e.visitadas.head? = some raiz) (h2 : e.visitadas.getLast? = some e.sala_atual)
    (h3 : List.Chain' ehFilho e.visitadas) :
    ∀ p, (∃ f, iteracao fuel e = some (Passo.termina f p)) ∨
        iteracao fuel e = some (Passo.continua p) →
      p.visitadas.head? = some raiz ∧ p.visitadas.getLast? = some p.sala_atual
      ∧ List.Chain' ehFilho p.visitadas := by
  intro p hp
  obtain ⟨s, entrada, saida, vis⟩ := e
  simp only at hn h1 h2 h3
  rcases iteracao_casos fuel s entrada saida vis hn with
    ⟨hf, hit⟩ | ⟨hf, ws, c, resto, hent, hws, hc, hit⟩ | ⟨hf, hws, hit⟩
  · rw [hit] at hp
    rcases hp with ⟨f, hp⟩ | hp
    · simp only [Option.some.injEq, Passo.termina.injEq] at hp
      obtain ⟨_, hp⟩ := hp
      subst hp
      exact ⟨h1, h2, h3⟩
    · simp at hp
  · rw [hit] at hp
    apply navegar_cadeia c ⟨s, resto,
      saida ++ [Evento.localizacao, Evento.nomeSala (cstr s.nome)] ++ opcoes s, vis⟩ raiz h1 h2 h3 p
    rcases hp with ⟨f, hp⟩ | hp
    · exact Or.inl ⟨f, Option.some.inj hp⟩
    · exact Or.inr (Option.some.inj hp)
  · rw [hit] at hp
    rcases hp with ⟨f, hp⟩ | hp <;> simp at hp

theorem descida_de_cadeia (raiz : Sala) (vis : List Sala) (hn : raiz.ehNulo = false)
    (h1 : vis.head? = some raiz) (h3 : List.Chain' ehFilho vis) : Descida raiz vis := by
  cases vis with
  | nil => simp at h1
  | cons a l =>
    simp only [List.head?_cons, Option.some.injEq] at h1
    subst h1
    refine ⟨rfl, h3, cadeia_nodup _ h3, ?_, cadeia_comprimento l a hn h3⟩
    intro i s hi
    simpa using cadeia_profundidade l a 0 hn h3 i s hi

theorem explorarSalasDe_cadeia (fuel : Nat) (e : Estado) (raiz : Sala) (f : Fim) (r : Estado)
    (hn : e.sala_atual.ehNulo = false)
    (h1 : e.visitadas.head? = some raiz) (h2 : e.visitadas.getLast? = some e.sala_atual)
    (h3 : List.Chain' ehFilho e.visitadas)
    (h : explorarSalasDe fuel e = some (f, r)) :
    r.visitadas.head? = some raiz ∧ r.visitadas.getLast? = some r.sala_atual
    ∧ List.Chain' ehFilho r.visitadas := by
  induction fuel generalizing e with
  | zero => simp [explorarSalasDe] at h
  | succ n ih =>
    rw [explorarSalasDe_succ n e hn] at h
    have hinv := iteracao_cadeia n e raiz hn h1 h2 h3
    split at h
    · simp at h
    · rename_i f1 e1 hit
      simp only [Option.some.injEq, Prod.mk.injEq] at h
      obtain ⟨hf, he⟩ := h
      subst hf he
      exact hinv e1 (Or.inl ⟨_, hit⟩)
    · rename_i e1 hit
      have hi := hinv e1 (Or.inr hit)
      exact ih e1 ((iteracao_nao_nulo n e hn).1 e1 hit) hi.1 hi.2.1 hi.2.2 h

theorem aposIteracoes_cadeia (fuel n : Nat) (e : Estado) (raiz : Sala) (r : Estado)
    (hn : e.sala_atual.ehNulo = false)
    (h1 : e.visitadas.head? = some raiz) (h2 : e.visitadas.getLast? = some e.sala_atual)
    (h3 : List.Chain' ehFilho e.visitadas)
    (h : aposIteracoes fuel n e = some r) :
    r.visitadas.head? = some raiz ∧ r.visitadas.getLast? = some r.sala_atual
    ∧ List.Chain' ehFilho r.visitadas := by
  induction n generalizing e with
  | zero =>
    simp only [aposIteracoes, Option.some.injEq] at h
    subst h
    exact ⟨h1, h2, h3⟩
  | succ n ih =>
    rw [aposIteracoes] at h
    simp only [hn, Bool.false_eq_true, if_false] at h
    have hinv := iteracao_cadeia fuel e raiz hn h1 h2 h3
    split at h
    · rename_i e1 hit
      have hi := hinv e1 (Or.inr hit)
      exact ih e1 ((iteracao_nao_nulo fuel e hn).1 e1 hit) hi.1 hi.2.1 hi.2.2 h
    · simp at h

theorem terminaCom_nulo (s : Sala) (i : List Nat) (o : List Evento) (v : List Sala)
    (x : Fim × Sala × List Sala) (hn : s.ehNulo = true) :
    terminaCom ⟨s, i, o, v⟩ x ↔ x = (Fim.nulo, s, v) := by
  constructor
  · rintro ⟨fuel, h⟩
    cases fuel with
    | zero => simp [explorarSalasDe] at h
    | succ n =>
      simp only [explorarSalasDe, hn, if_true, Option.map_some', Option.some.injEq, resumo] at h
      exact h.symm
  · intro h
    exact ⟨1, by simp [explorarSalasDe, hn, resumo, h]⟩

theorem terminaCom_folha (s : Sala) (i : List Nat) (o : List Evento) (v : List Sala)
    (x : Fim × Sala × List Sala) (hf : s.ehFolha = true) :
    terminaCom ⟨s, i, o, v⟩ x ↔ x = (Fim.folha, s, v) := by
  constructor
  · rintro ⟨fuel, h⟩
    cases fuel with
    | zero => simp [explorarSalasDe] at h
    | succ n =>
      rw [explorarSalasDe_em_folha n s i o v hf] at h
      simp only [Option.map_some', Option.some.injEq, resumo] at h
      exact h.symm
  · intro h
    exact ⟨1, by rw [explorarSalasDe_em_folha 0 s i o v hf]; simp [resumo, h]⟩

theorem terminaCom_espacos (s : Sala) (i : List Nat) (o : List Evento) (v : List Sala)
    (x : Fim × Sala × List Sala) (hn : s.ehNulo = false) (hf : s.ehFolha = false)
    (hi : i.all isspace = true) : ¬ terminaCom ⟨s, i, o, v⟩ x := by
  rintro ⟨fuel, h⟩
  cases fuel with
  | zero => simp [explorarSalasDe] at h
  | succ n =>
    rw [explorarSalasDe_succ n _ hn, iteracao_fim_da_entrada n s i o v hn hf hi] at h
    simp at h

theorem explorarSalasDe_espaco (fuel : Nat) (s : Sala) (c : Nat) (cs : List Nat)
    (o : List Evento) (v : List Sala) (hn : s.ehNulo = false) (hf : s.ehFolha = false)
    (hc : isspace c = true) :
    explorarSalasDe fuel ⟨s, c :: cs, o, v⟩ = explorarSalasDe fuel ⟨s, cs, o, v⟩ := by
  cases fuel with
  | zero => rfl
  | succ n =>
    have h := nao_folha s hn hf
    have hit : iteracao n ⟨s, c :: cs, o, v⟩ = iteracao n ⟨s, cs, o, v⟩ := by
      simp only [iteracao, Estado.imprimir, scanf_c, hc, h, if_false, if_true]
    rw [explorarSalasDe_succ n _ hn, explorarSalasDe_succ n _ hn, hit]

theorem terminaCom_escolha (s : Sala) (c : Nat) (cs : List Nat) (o : List Evento)
    (v : List Sala) (x : Fim × Sala × List Sala)
    (hn : s.ehNulo = false) (hf : s.ehFolha = false) (hc : isspace c = false) :
    terminaCom ⟨s, c :: cs, o, v⟩ x ↔
      match navegar c ⟨s, cs,
          o ++ [Evento.localizacao, Evento.nomeSala (cstr s.nome)] ++ opcoes s, v⟩ with
      | Passo.continua e1 => terminaCom e1 x
      | Passo.termina f e1 => resumo (f, e1) = x := by
  have hit := fun fuel => iteracao_escolha fuel s [] cs c o v hn hf rfl hc
  simp only [List.nil_append] at hit
  constructor
  · rintro ⟨fuel, h⟩
    cases fuel with
    | zero => simp [explorarSalasDe] at h
    | succ n =>
      rw [explorarSalasDe_succ n _ hn, hit n] at h
      cases hnav : navegar c ⟨s, cs,
          o ++ [Evento.localizacao, Evento.nomeSala (cstr s.nome)] ++ opcoes s, v⟩ with
      | continua e1 =>
        rw [hnav] at h
        exact ⟨n, h⟩
      | termina f e1 =>
        rw [hnav] at h
        simpa using h
  · intro h
    cases hnav : navegar c ⟨s, cs,
        o ++ [Evento.localizacao, Evento.nomeSala (cstr s.nome)] ++ opcoes s, v⟩ with
    | continua e1 =>
      rw [hnav] at h
      obtain ⟨n, hn1⟩ := h
      refine ⟨n + 1, ?_⟩
      rw [explorarSalasDe_succ n _ hn, hit n, hnav]
      exact hn1
    | termina f e1 =>
      rw [hnav] at h
      refine ⟨1, ?_⟩
      rw [explorarSalasDe_succ 0 _ hn, hit 0, hnav]
      simpa using h

/-- The position and the trace after the `switch` depend on the choice, the
room and the trace only, not on the input left or on what was printed. -/
theorem navegar_forma (c : Nat) (s : Sala) (v : List Sala) :
    (∃ s1 v1, ∀ (i : List Nat) (o : List Evento),
        ∃ o1, navegar c ⟨s, i, o, v⟩ = Passo.continua ⟨s1, i, o1, v1⟩)
    ∨ (∀ (i : List Nat) (o : List Evento),
        ∃ o1, navegar c ⟨s, i, o, v⟩ = Passo.termina Fim.sair ⟨s, i, o1, v⟩) := by
  by_cases h1 : c = 101 ∨ c = 69
  · by_cases h2 : s.esquerda.ehNulo = false
    · exact Or.inl ⟨s.esquerda, v ++ [s.esquerda], fun i o =>
        ⟨o, by simp [navegar, h1, h2, Estado.mover]⟩⟩
    · exact Or.inl ⟨s, v, fun i o =>
        ⟨o ++ [Evento.indisponivel], by simp [navegar, h1, h2, Estado.imprimir]⟩⟩
  · by_cases h3 : c = 100 ∨ c = 68
    · by_cases h4 : s.direita.ehNulo = false
      · exact Or.inl ⟨s.direita, v ++ [s.direita], fun i o =>
          ⟨o, by simp [navegar, h1, h3, h4, Estado.mover]⟩⟩
      · exact Or.inl ⟨s, v, fun i o =>
          ⟨o ++ [Evento.indisponivel], by simp [navegar, h1, h3, h4, Estado.imprimir]⟩⟩
    · by_cases h5 : c = 115 ∨ c = 83
      · exact Or.inr (fun i o =>
          ⟨o ++ [Evento.saiu], by simp [navegar, h1, h3, h5, Estado.imprimir]⟩)
      · exact Or.inl ⟨s, v, fun i o =>
          ⟨o ++ [Evento.invalida], by simp [navegar, h1, h3, h5, Estado.imprimir]⟩⟩

theorem navegar_invalida (c : Nat) (e0 : Estado) (hc : ehComando c = false) :
    navegar c e0 = Passo.continua (e0.imprimir [Evento.invalida]) := by
  simp only [ehComando, Bool.or_eq_false_iff, beq_eq_false_iff_ne, ne_eq] at hc
  obtain ⟨⟨⟨⟨⟨h1, h2⟩, h3⟩, h4⟩, h5⟩, h6⟩ := hc
  simp [navegar, h1, h2, h3, h4, h5, h6]

theorem ehComando_nao_espaco (c : Nat) (hc : ehComando c = true) : isspace c = false := by
  simp only [ehComando, Bool.or_eq_true, beq_iff_eq] at hc
  rcases hc with ((((h | h) | h) | h) | h) | h <;> subst h <;> decide

/-- Deleting the bytes that are not commands changes neither whether the
session returns nor its outcome, from any state and whatever was printed. -/
theorem terminaCom_filtrar (entrada : List Nat) :
    ∀ (s : Sala) (o1 o2 : List Evento) (v : List Sala) (x : Fim × Sala × List Sala),
      terminaCom ⟨s, entrada, o1, v⟩ x ↔ terminaCom ⟨s, filtrar entrada, o2, v⟩ x := by
  induction entrada with
  | nil =>
    intro s o1 o2 v x
    cases hn : s.ehNulo with
    | true => rw [terminaCom_nulo _ _ _ _ _ hn, terminaCom_nulo _ _ _ _ _ hn]
    | false =>
      cases hf : s.ehFolha with
      | true => rw [terminaCom_folha _ _ _ _ _ hf, terminaCom_folha _ _ _ _ _ hf]
      | false =>
        exact ⟨fun h => absurd h (terminaCom_espacos s [] o1 v x hn hf rfl),
          fun h => absurd h (terminaCom_espacos s [] o2 v x hn hf rfl)⟩
  | cons c cs ih =>
    intro s o1 o2 v x
    cases hn : s.ehNulo with
    | true => rw [terminaCom_nulo _ _ _ _ _ hn, terminaCom_nulo _ _ _ _ _ hn]
    | false =>
      cases hf : s.ehFolha with
      | true => rw [terminaCom_folha _ _ _ _ _ hf, terminaCom_folha _ _ _ _ _ hf]
      | false =>
        cases hcmd : ehComando c with
        | false =>
          have hfil : filtrar (c :: cs) = filtrar cs := by simp [filtrar, hcmd]
          rw [hfil]
          cases hsp : isspace c with
          | true =>
            have : terminaCom ⟨s, c :: cs, o1, v⟩ x ↔ terminaCom ⟨s, cs, o1, v⟩ x := by
              simp only [terminaCom, explorarSalasDe_espaco _ s c cs o1 v hn hf hsp]
            rw [this]
            exact ih s o1 o2 v x
          | false =>
            rw [terminaCom_escolha s c cs o1 v x hn hf hsp, navegar_invalida c _ hcmd]
            exact ih s _ o2 v x
        | true =>
          have hfil : filtrar (c :: cs) = c :: filtrar cs := by simp [filtrar, hcmd]
          have hsp := ehComando_nao_espaco c hcmd
          rw [hfil, terminaCom_escolha s c cs o1 v x hn hf hsp,
            terminaCom_escolha s c (filtrar cs) o2 v x hn hf hsp]
          rcases navegar_forma c s v with ⟨s1, v1, hnav⟩ | hnav
          · obtain ⟨oa, ha⟩ := hnav cs
              (o1 ++ [Evento.localizacao, Evento.nomeSala (cstr s.nome)] ++ opcoes s)
            obtain ⟨ob, hb⟩ := hnav (filtrar cs)
              (o2 ++ [Evento.localizacao, Evento.nomeSala (cstr s.nome)] ++ opcoes s)
            rw [ha, hb]
            exact ih s1 oa ob v1 x
          · obtain ⟨oa, ha⟩ := hnav cs
              (o1 ++ [Evento.localizacao, Evento.nomeSala (cstr s.nome)] ++ opcoes s)
            obtain ⟨ob, hb⟩ := hnav (filtrar cs)
              (o2 ++ [Evento.localizacao, Evento.nomeSala (cstr s.nome)] ++ opcoes s)
            rw [ha, hb]
            simp [resumo]

theorem alcanca_inicio (e : Estado) : alcanca e (e.sala_atual, e.visitadas) :=
  ⟨0, 0, e, rfl, rfl⟩

theorem alcanca_parado (e : Estado) (p : Sala × List Sala)
    (h : ∀ fuel, e.sala_atual.ehNulo = true ∨ ∀ e1, iteracao fuel e ≠ some (Passo.continua e1)) :
    alcanca e p ↔ p = (e.sala_atual, e.visitadas) := by
  constructor
  · rintro ⟨fuel, n, e1, h1, h2⟩
    cases n with
    | zero =>
      simp only [aposIteracoes, Option.some.injEq] at h1
      subst h1
      exact h2.symm
    | succ n =>
      rw [aposIteracoes] at h1
      rcases h fuel with hn | hit
      · simp [hn] at h1
      · split_ifs at h1
        split at h1
        · rename_i e2 hit2
          exact absurd hit2 (hit e2)
        · simp at h1
  · intro h1
    rw [h1]
    exact alcanca_inicio e

theorem alcanca_espaco (s : Sala) (c : Nat) (cs : List Nat) (o : List Evento) (v : List Sala)
    (p : Sala × List Sala) (hn : s.ehNulo = false) (hf : s.ehFolha = false)
    (hc : isspace c = true) :
    alcanca ⟨s, c :: cs, o, v⟩ p ↔ alcanca ⟨s, cs, o, v⟩ p := by
  have h := nao_folha s hn hf
  have hit : ∀ fuel, iteracao fuel ⟨s, c :: cs, o, v⟩ = iteracao fuel ⟨s, cs, o, v⟩ := by
    intro fuel
    simp only [iteracao, Estado.imprimir, scanf_c, hc, h, if_false, if_true]
  have hap : ∀ fuel n, aposIteracoes fuel (n + 1) ⟨s, c :: cs, o, v⟩ =
      aposIteracoes fuel (n + 1) ⟨s, cs, o, v⟩ := by
    intro fuel n
    simp only [aposIteracoes, hit]
  constructor
  · rintro ⟨fuel, n, e1, h1, h2⟩
    cases n with
    | zero =>
      simp only [aposIteracoes, Option.some.injEq] at h1
      subst h1
      exact ⟨0, 0, _, rfl, h2⟩
    | succ n =>
      rw [hap] at h1
      exact ⟨fuel, n + 1, e1, h1, h2⟩
  · rintro ⟨fuel, n, e1, h1, h2⟩
    cases n with
    | zero =>
      simp only [aposIteracoes, Option.some.injEq] at h1
      subst h1
      exact ⟨0, 0, _, rfl, h2⟩
    | succ n =>
      rw [← hap] at h1
      exact ⟨fuel, n + 1, e1, h1, h2⟩

theorem alcanca_escolha (s : Sala) (c : Nat) (cs : List Nat) (o : List Evento)
    (v : List Sala) (p : Sala × List Sala)
    (hn : s.ehNulo = false) (hf : s.ehFolha = false) (hc : isspace c = false) :
    alcanca ⟨s, c :: cs, o, v⟩ p ↔
      (p = (s, v) ∨
        match navegar c ⟨s, cs,
            o ++ [Evento.localizacao, Evento.nomeSala (cstr s.nome)] ++ opcoes s, v⟩ with
        | Passo.continua e1 => alcanca e1 p
        | Passo.termina _ _ => False) := by
  have hit := fun fuel => iteracao_escolha fuel s [] cs c o v hn hf rfl hc
  simp only [List.nil_append] at hit
  have hap : ∀ fuel n, aposIteracoes fuel (n + 1) ⟨s, c :: cs, o, v⟩ =
      match navegar c ⟨s, cs,
          o ++ [Evento.localizacao, Evento.nomeSala (cstr s.nome)] ++ opcoes s, v⟩ with
      | Passo.continua e1 => aposIteracoes fuel n e1
      | Passo.termina _ _ => none := by
    intro fuel n
    rw [aposIteracoes]
    simp only [hn, Bool.false_eq_true, if_false, hit]
    cases navegar c ⟨s, cs,
      o ++ [Evento.localizacao, Evento.nomeSala (cstr s.nome)] ++ opcoes s, v⟩ <;> rfl
  constructor
  · rintro ⟨fuel, n, e1, h1, h2⟩
    cases n with
    | zero =>
      simp only [aposIteracoes, Option.some.injEq] at h1
      subst h1
      exact Or.inl h2.symm
    | succ n =>
      right
      rw [hap] at h1
      cases hnav : navegar c ⟨s, cs,
          o ++ [Evento.localizacao, Evento.nomeSala (cstr s.nome)] ++ opcoes s, v⟩ with
      | continua e2 =>
        rw [hnav] at h1
        exact ⟨fuel, n, e1, h1, h2⟩
      | termina f e2 =>
        rw [hnav] at h1
        simp at h1
  · rintro (h | h)
    · rw [h]
      exact alcanca_inicio ⟨s, c :: cs, o, v⟩
    · cases hnav : navegar c ⟨s, cs,
          o ++ [Evento.localizacao, Evento.nomeSala (cstr s.nome)] ++ opcoes s, v⟩ with
      | continua e2 =>
        rw [hnav] at h
        obtain ⟨fuel, n, e1, h1, h2⟩ := h
        refine ⟨fuel, n + 1, e1, ?_, h2⟩
        rw [hap, hnav]
        exact h1
      | termina f e2 =>
        rw [hnav] at h
        exact absurd h id

/-- Deleting the bytes that are not commands does not change the positions
that the session gets to, whether or not it returns. -/
theorem alcanca_filtrar (entrada : List Nat) :
    ∀ (s : Sala) (o1 o2 : List Evento) (v : List Sala) (p : Sala × List Sala),
      alcanca ⟨s, entrada, o1, v⟩ p ↔ alcanca ⟨s, filtrar entrada, o2, v⟩ p := by
  have parado : ∀ (s : Sala) (i : List Nat) (o : List Evento) (v : List Sala),
      s.ehNulo = true ∨ s.ehFolha = true ∨ i.all isspace = true →
      ∀ fuel, (⟨s, i, o, v⟩ : Estado).sala_atual.ehNulo = true ∨
        ∀ e1, iteracao fuel ⟨s, i, o, v⟩ ≠ some (Passo.continua e1) := by
    intro s i o v h fuel
    cases hn : s.ehNulo with
    | true => exact Or.inl rfl
    | false =>
      right
      intro e1
      cases hf : s.ehFolha with
      | true => rw [iteracao_na_folha fuel s i o v hf]; simp
      | false =>
        rcases h with h | h | h
        · rw [hn] at h; simp at h
        · rw [hf] at h; simp at h
        · rw [iteracao_fim_da_entrada fuel s i o v hn hf h]; simp
  induction entrada with
  | nil =>
    intro s o1 o2 v p
    cases hn : s.ehNulo with
    | true =>
      rw [alcanca_parado _ p (parado s _ o1 v (Or.inl hn)),
        alcanca_parado _ p (parado s _ o2 v (Or.inl hn))]
    | false =>
      rw [alcanca_parado _ p (parado s [] o1 v (Or.inr (Or.inr rfl))),
        alcanca_parado _ p (parado s (filtrar []) o2 v (Or.inr (Or.inr rfl)))]
  | cons c cs ih =>
    intro s o1 o2 v p
    cases hn : s.ehNulo with
    | true =>
      rw [alcanca_parado _ p (parado s _ o1 v (Or.inl hn)),
        alcanca_parado _ p (parado s _ o2 v (Or.inl hn))]
    | false =>
      cases hf : s.ehFolha with
      | true =>
        rw [alcanca_parado _ p (parado s _ o1 v (Or.inr (Or.inl hf))),
          alcanca_parado _ p (parado s _ o2 v (Or.inr (Or.inl hf)))]
      | false =>
        cases hcmd : ehComando c with
        | false =>
          have hfil : filtrar (c :: cs) = filtrar cs := by simp [filtrar, hcmd]
          rw [hfil]
          cases hsp : isspace c with
          | true =>
            rw [alcanca_espaco s c cs o1 v p hn hf hsp]
            exact ih s o1 o2 v p
          | false =>
            rw [alcanca_escolha s c cs o1 v p hn hf hsp, navegar_invalida c _ hcmd]
            simp only [Estado.imprimir]
            constructor
            · rintro (h | h)
              · rw [h]
                exact alcanca_inicio ⟨s, filtrar cs, o2, v⟩
              · exact (ih s _ o2 v p).mp h
            · intro h
              exact Or.inr ((ih s _ o2 v p).mpr h)
        | true =>
          have hfil : filtrar (c :: cs) = c :: filtrar cs := by simp [filtrar, hcmd]
          have hsp := ehComando_nao_espaco c hcmd
          rw [hfil, alcanca_escolha s c cs o1 v p hn hf hsp,
            alcanca_escolha s c (filtrar cs) o2 v p hn hf hsp]
          rcases navegar_forma c s v with ⟨s1, v1, hnav⟩ | hnav
          · obtain ⟨oa, ha⟩ := hnav cs
              (o1 ++ [Evento.localizacao, Evento.nomeSala (cstr s.nome)] ++ opcoes s)
            obtain ⟨ob, hb⟩ := hnav (filtrar cs)
              (o2 ++ [Evento.localizacao, Evento.nomeSala (cstr s.nome)] ++ opcoes s)
            rw [ha, hb]
            simp only
            rw [ih s1 oa ob v1 p]
          · obtain ⟨oa, ha⟩ := hnav cs
              (o1 ++ [Evento.localizacao, Evento.nomeSala (cstr s.nome)] ++ opcoes s)
            obtain ⟨ob, hb⟩ := hnav (filtrar cs)
              (o2 ++ [Evento.localizacao, Evento.nomeSala (cstr s.nome)] ++ opcoes s)
            rw [ha, hb]

theorem iteracao_combustivel (f1 f2 : Nat) (e : Estado) (p : Passo)
    (hn : e.sala_atual.ehNulo = false) (h : iteracao f1 e = some p) :
    iteracao f2 e = some p := by
  obtain ⟨s, entrada, saida, vis⟩ := e
  simp only at hn
  rcases iteracao_casos f1 s entrada saida vis hn with
    ⟨hf, hit⟩ | ⟨hf, ws, c, resto, hent, hws, hc, hit⟩ | ⟨hf, hws, hit⟩
  · rw [hit] at h
    rw [← h]
    exact iteracao_na_folha f2 s entrada saida vis hf
  · rw [hit] at h
    rw [← h, hent]
    exact iteracao_escolha f2 s ws resto c saida vis hn hf hws hc
  · rw [hit] at h
    simp at h

theorem explorarSalasDe_mais (fuel : Nat) (e : Estado) (r : Fim × Estado)
    (h : explorarSalasDe fuel e = some r) : explorarSalasDe (fuel + 1) e = some r := by
  induction fuel generalizing e with
  | zero => simp [explorarSalasDe] at h
  | succ n ih =>
    cases hn : e.sala_atual.ehNulo with
    | true =>
      simp only [explorarSalasDe, hn, if_true] at h ⊢
      exact h
    | false =>
      rw [explorarSalasDe_succ n e hn] at h
      rw [explorarSalasDe_succ (n + 1) e hn]
      cases hit : iteracao n e with
      | none => rw [hit] at h; simp at h
      | some p =>
        rw [hit] at h
        rw [iteracao_combustivel n (n + 1) e p hn hit]
        cases p with
        | continua e1 => exact ih e1 h
        | termina f e1 => exact h

theorem explorarSalasDe_mono (f1 f2 : Nat) (e : Estado) (r : Fim × Estado) (hle : f1 ≤ f2)
    (h : explorarSalasDe f1 e = some r) : explorarSalasDe f2 e = some r := by
  induction hle with
  | refl => exact h
  | step _ ih => exact explorarSalasDe_mais _ e r ih

/-! ## The claims -/

/-- C1 (the code departs from it): at a room with a child, at any point of a
session, when the input left holds nothing but white space `explorarSalas`
does not return, however much fuel it is given: `scanf` reports end-of-input
and the loop of line 82 then waits for a line terminator that `getchar` never
delivers. -/
theorem explorarSalas_fim_da_entrada_nao_retorna (fuel : Nat) (sala : Sala) (ws : List Nat)
    (saida : List Evento) (vis : List Sala)
    (hn : sala.ehNulo = false) (hf : sala.ehFolha = false)
    (hws : ws.all isspace = true) :
    explorarSalasDe fuel ⟨sala, ws, saida, vis⟩ = none
    ∧ explorarSalas fuel sala ws = none := by
  have h := nao_folha sala hn hf
  have hs : scanf_c ws = (none, []) := by
    have := scanf_c_espacos ws [] hws
    simpa [scanf_c] using this
  have key : ∀ (o : List Evento) (v : List Sala),
      explorarSalasDe fuel ⟨sala, ws, o, v⟩ = none := by
    intro o v
    cases fuel with
    | zero => rfl
    | succ n =>
      simp only [explorarSalasDe, hn, iteracao, Estado.imprimir, h, hs,
        limparBuffer_fim_da_entrada]
      simp
  exact ⟨key saida vis, key [] [sala]⟩

/-- C1, at the tree of `main` with an empty input and with a lone line end. -/
theorem explorarSalas_fim_da_entrada_nao_retorna_witness :
    explorarSalas 1000 mansao [] = none ∧ explorarSalas 1000 mansao [10] = none :=
  ⟨(explorarSalas_fim_da_entrada_nao_retorna 1000 mansao [] [] [mansao]
      (by decide) (by decide) (by decide)).2,
   (explorarSalas_fim_da_entrada_nao_retorna 1000 mansao [10] [] [mansao]
      (by decide) (by decide) (by decide)).2⟩

/-- C2: when the allocation succeeds, `criarSala` returns a room whose array
`nome` has `MAX_NOME` bytes with a zero at index 49, whose name read up to the
first zero is the first `min 49 (strlen nome_sala)` bytes of the argument, and
whose children are both null; when the argument is longer than 49 bytes the
array is exactly its first 49 bytes followed by the zero. -/
theorem criarSala_nome_truncado (nome_sala : List Nat) :
    (criarSala true nome_sala).ehNulo = false
    ∧ (criarSala true nome_sala).nome.length = MAX_NOME
    ∧ (criarSala true nome_sala).nome[49]? = some 0
    ∧ cstr (criarSala true nome_sala).nome
        = nome_sala.take (min 49 (strlen nome_sala))
    ∧ (49 < strlen nome_sala →
        (criarSala true nome_sala).nome = nome_sala.take 49 ++ [0]
        ∧ cstr (criarSala true nome_sala).nome = nome_sala.take 49)
    ∧ (criarSala true nome_sala).esquerda = Sala.nulo
    ∧ (criarSala true nome_sala).direita = Sala.nulo := by
  have hlen := length_strncpy nome_sala 49
  have hnome : (criarSala true nome_sala).nome = strncpy nome_sala 49 ++ [0] := by
    simp [criarSala, Sala.nome, MAX_NOME]
  refine ⟨by simp [criarSala, Sala.ehNulo], ?_, ?_, ?_, ?_, by simp [criarSala, Sala.esquerda],
    by simp [criarSala, Sala.direita]⟩
  · simp [hnome, hlen, MAX_NOME]
  · rw [hnome, List.getElem?_append_right (by omega)]
    simp [hlen]
  · rw [hnome, cstr_strncpy_zero, ← take_cstr nome_sala _ (Nat.min_le_right 49 _)]
    by_cases h : 49 ≤ strlen nome_sala
    · rw [Nat.min_eq_left h]
    · have h2 : strlen nome_sala ≤ 49 := by omega
      rw [Nat.min_eq_right h2]
      simp only [strlen] at h2 ⊢
      rw [List.take_of_length_le h2, List.take_of_length_le (le_refl _)]
  · intro h
    have h2 : 49 ≤ strlen nome_sala := by omega
    rw [hnome, cstr_strncpy_zero, strncpy_of_long nome_sala 49 h2, take_cstr nome_sala 49 h2]
    exact ⟨rfl, rfl⟩

/-- C3: on the tree of `main`, the input `e`, `e` takes the Explorer from the
root to the left child and then to the room named "Cozinha", two changes of
position; that room is a leaf, so the function returns there with the
end-of-exploration message, leaving the rest of the input unread. -/
theorem sempre_esquerda_chega_a_cozinha (fuel : Nat) (resto : List Nat) :
    explorarSalas (fuel + 3) mansao (101 :: 101 :: resto) =
      some (Fim.folha,
        { sala_atual := comodo "Cozinha", entrada := resto,
          saida :=
            [Evento.localizacao, Evento.nomeSala (literal "Hall de Entrada"),
              Evento.escolhaCaminho, Evento.opcaoEsquerda (literal "Sala de Estar"),
              Evento.opcaoDireita (literal "Biblioteca"), Evento.opcaoSair, Evento.pedido,
              Evento.localizacao, Evento.nomeSala (literal "Sala de Estar"),
              Evento.escolhaCaminho, Evento.opcaoEsquerda (literal "Cozinha"),
              Evento.opcaoDireita (literal "Quarto Principal"), Evento.opcaoSair,
              Evento.pedido,
              Evento.localizacao, Evento.nomeSala (literal "Cozinha"),
              Evento.semCaminhos, Evento.fimExploracao],
          visitadas := [mansao, mansao.esquerda, comodo "Cozinha"] })
    ∧ (explorarSalas (fuel + 3) mansao (101 :: 10 :: 101 :: 10 :: resto)).map
          (fun r => (r.1, r.2.sala_atual, r.2.entrada, r.2.visitadas))
        = some (Fim.folha, comodo "Cozinha", 10 :: resto,
            [mansao, mansao.esquerda, comodo "Cozinha"])
    ∧ mansao.esquerda.esquerda = comodo "Cozinha"
    ∧ mansao.esquerda ≠ comodo "Cozinha"
    ∧ cstr (comodo "Cozinha").nome = literal "Cozinha"
    ∧ (comodo "Cozinha").ehFolha = true := by
  refine ⟨rfl, rfl, by decide, by decide, by decide, by decide⟩

/-- C4 (as stated, refuted): on the tree of `main` the input `d`, `d` leads in
two iterations to a room whose left child is not named "Porão". -/
theorem filho_esquerdo_do_escritorio_nao_se_chama_porao :
    ∃ e1 e2, iteracao 0 (inicio mansao [100, 100]) = some (Passo.continua e1)
      ∧ iteracao 0 e1 = some (Passo.continua e2)
      ∧ cstr e2.sala_atual.esquerda.nome ≠ literal "Porão" :=
  ⟨_, _, rfl, rfl, by decide⟩

/-- C4 (amended): on the tree of `main` the input `d`, `d` takes the Explorer
from the root to "Biblioteca" and then to "Escritório", two changes of
position; that room has two children, both leaves, whose stored names are
"Porão (Fim do Jogo)" on the left and "Sótão" on the right. -/
theorem sempre_direita_chega_a_escritorio (fuel : Nat) (resto : List Nat) :
    iteracao fuel (inicio mansao (100 :: 100 :: resto)) =
      some (Passo.continua
        { sala_atual := mansao.direita, entrada := 100 :: resto,
          saida :=
            [Evento.localizacao, Evento.nomeSala (literal "Hall de Entrada"),
              Evento.escolhaCaminho, Evento.opcaoEsquerda (literal "Sala de Estar"),
              Evento.opcaoDireita (literal "Biblioteca"), Evento.opcaoSair, Evento.pedido],
          visitadas := [mansao, mansao.direita] })
    ∧ iteracao fuel
        { sala_atual := mansao.direita, entrada := 100 :: resto,
          saida :=
            [Evento.localizacao, Evento.nomeSala (literal "Hall de Entrada"),
              Evento.escolhaCaminho, Evento.opcaoEsquerda (literal "Sala de Estar"),
              Evento.opcaoDireita (literal "Biblioteca"), Evento.opcaoSair, Evento.pedido],
          visitadas := [mansao, mansao.direita] } =
      some (Passo.continua
        { sala_atual := mansao.direita.direita, entrada := resto,
          saida :=
            [Evento.localizacao, Evento.nomeSala (literal "Hall de Entrada"),
              Evento.escolhaCaminho, Evento.opcaoEsquerda (literal "Sala de Estar"),
              Evento.opcaoDireita (literal "Biblioteca"), Evento.opcaoSair, Evento.pedido,
              Evento.localizacao, Evento.nomeSala (literal "Biblioteca"),
              Evento.escolhaCaminho, Evento.opcaoEsquerda (literal "Jardim de Inverno"),
              Evento.opcaoDireita (literal "Escritório"), Evento.opcaoSair, Evento.pedido],
          visitadas := [mansao, mansao.direita, mansao.direita.direita] })
    ∧ cstr mansao.direita.nome = literal "Biblioteca"
    ∧ cstr mansao.direita.direita.nome = literal "Escritório"
    ∧ mansao.direita.direita.esquerda = comodo "Porão (Fim do Jogo)"
    ∧ mansao.direita.direita.direita = comodo "Sótão"
    ∧ cstr (comodo "Porão (Fim do Jogo)").nome = literal "Porão (Fim do Jogo)"
    ∧ cstr (comodo "Sótão").nome = literal "Sótão"
    ∧ (comodo "Porão (Fim do Jogo)").ehFolha = true
    ∧ (comodo "Sótão").ehFolha = true := by
  refine ⟨rfl, rfl, by decide, by decide, by decide, by decide, by decide, by decide,
    by decide, by decide⟩

/-- C5 (as stated, refuted): the tree of `main` does not have 14 rooms. -/
theorem mansao_nao_tem_14_salas : mansao.tamanho ≠ 14 := by decide

/-- C5 (amended): the tree that `main` builds when every allocation succeeds
has exactly 10 rooms and depth at most 3, the root being at depth 0 (the
deepest rooms are at depth 3). -/
theorem mansao_tem_10_salas :
    mansao.tamanho = 10
    ∧ mansao.salas.length = 10
    ∧ (Sala.salasComProfundidade 0 mansao).all (fun p => p.1 ≤ 3) = true
    ∧ mansao.niveis = 4
    ∧ (Sala.salasComProfundidade 0 mansao).map (fun p => (p.1, cstr p.2.nome)) =
        [(0, literal "Hall de Entrada"),
         (1, literal "Sala de Estar"),
         (2, literal "Cozinha"),
         (2, literal "Quarto Principal"),
         (3, literal "Banheiro (Secreta)"),
         (1, literal "Biblioteca"),
         (2, literal "Jardim de Inverno"),
         (2, literal "Escritório"),
         (3, literal "Porão (Fim do Jogo)"),
         (3, literal "Sótão")] := by
  refine ⟨by decide, by decide, by decide, by decide, by decide⟩

/-- C6: at any room with a child, whatever white space and then `s` or `S`
the input holds, the iteration that reads it ends the session at once:
`explorarSalas` returns through the quit command with `sala_atual` unchanged,
no room added to the trace, and the input after the command left unread. -/
theorem sair_encerra_a_sessao (fuel : Nat) (s : Sala) (ws resto : List Nat) (c : Nat)
    (saida : List Evento) (vis : List Sala)
    (hn : s.ehNulo = false) (hf : s.ehFolha = false)
    (hws : ws.all isspace = true) (hc : c = 115 ∨ c = 83) :
    iteracao fuel ⟨s, ws ++ c :: resto, saida, vis⟩ =
      some (Passo.termina Fim.sair ⟨s, resto,
        saida ++ [Evento.localizacao, Evento.nomeSala (cstr s.nome)] ++ opcoes s
          ++ [Evento.saiu], vis⟩)
    ∧ explorarSalasDe (fuel + 1) ⟨s, ws ++ c :: resto, saida, vis⟩ =
      some (Fim.sair, ⟨s, resto,
        saida ++ [Evento.localizacao, Evento.nomeSala (cstr s.nome)] ++ opcoes s
          ++ [Evento.saiu], vis⟩) := by
  have hsp : isspace c = false := by rcases hc with h | h <;> subst h <;> decide
  have hit := iteracao_escolha fuel s ws resto c saida vis hn hf hws hsp
  have hnav : ∀ e : Estado, navegar c e = Passo.termina Fim.sair (e.imprimir [Evento.saiu]) := by
    intro e
    rcases hc with h | h <;> subst h <;> simp [navegar]
  rw [hnav] at hit
  refine ⟨hit, ?_⟩
  simp only [explorarSalasDe, hn, hit]
  simp [Estado.imprimir]

/-- C6, at the root of the tree of `main` with input `s`, `e`, `e`. -/
theorem sair_encerra_a_sessao_witness :
    explorarSalas 1 mansao [115, 101, 101] =
      some (Fim.sair, ⟨mansao, [101, 101],
        [] ++ [Evento.localizacao, Evento.nomeSala (cstr mansao.nome)] ++ opcoes mansao
          ++ [Evento.saiu], [mansao]⟩) :=
  (sair_encerra_a_sessao 0 mansao [] [101, 101] 115 [] [mansao]
    (by decide) (by decide) (by decide) (by decide)).2

/-- C7: at a room whose left child is absent and whose right child is present,
the command `e` or `E` prints the path-unavailable message and leaves
`sala_atual`, and the trace, unchanged; likewise `d` or `D` at a room whose
right child is absent and whose left child is present. -/
theorem caminho_ausente_mantem_posicao (fuel : Nat) (nome : List Nat) (filho : Sala)
    (ws resto : List Nat) (c : Nat) (saida : List Evento) (vis : List Sala)
    (hfilho : filho.ehNulo = false) (hws : ws.all isspace = true) :
    ((c = 101 ∨ c = 69) →
      iteracao fuel ⟨Sala.no nome Sala.nulo filho, ws ++ c :: resto, saida, vis⟩ =
        some (Passo.continua ⟨Sala.no nome Sala.nulo filho, resto,
          saida ++ [Evento.localizacao, Evento.nomeSala (cstr nome)]
            ++ opcoes (Sala.no nome Sala.nulo filho) ++ [Evento.indisponivel], vis⟩))
    ∧ ((c = 100 ∨ c = 68) →
      iteracao fuel ⟨Sala.no nome filho Sala.nulo, ws ++ c :: resto, saida, vis⟩ =
        some (Passo.continua ⟨Sala.no nome filho Sala.nulo, resto,
          saida ++ [Evento.localizacao, Evento.nomeSala (cstr nome)]
            ++ opcoes (Sala.no nome filho Sala.nulo) ++ [Evento.indisponivel], vis⟩))
    ∧ cstr mansao.esquerda.direita.nome = literal "Quarto Principal"
    ∧ mansao.esquerda.direita.direita = Sala.nulo
    ∧ mansao.esquerda.direita.esquerda.ehNulo = false
    ∧ iteracao fuel ⟨mansao.esquerda.direita, ws ++ 100 :: resto, saida, vis⟩ =
        some (Passo.continua ⟨mansao.esquerda.direita, resto,
          saida ++ [Evento.localizacao, Evento.nomeSala (literal "Quarto Principal"),
            Evento.escolhaCaminho, Evento.opcaoEsquerda (literal "Banheiro (Secreta)"),
            Evento.opcaoSair, Evento.pedido, Evento.indisponivel], vis⟩) := by
  have hfe : (Sala.no nome Sala.nulo filho).ehFolha = false := by
    cases filho <;> simp_all [Sala.ehFolha, Sala.ehNulo]
  have hfd : (Sala.no nome filho Sala.nulo).ehFolha = false := by
    cases filho <;> simp_all [Sala.ehFolha, Sala.ehNulo]
  refine ⟨?_, ?_, by decide, by decide, by decide, ?_⟩
  · intro hc
    have hsp : isspace c = false := by rcases hc with h | h <;> subst h <;> decide
    rw [iteracao_escolha fuel (Sala.no nome Sala.nulo filho) ws resto c saida vis rfl hfe hws hsp]
    rcases hc with h | h <;> subst h <;>
      simp [navegar, Sala.esquerda, Sala.ehNulo, Estado.imprimir, Sala.nome]
  · intro hc
    have hsp : isspace c = false := by rcases hc with h | h <;> subst h <;> decide
    rw [iteracao_escolha fuel (Sala.no nome filho Sala.nulo) ws resto c saida vis rfl hfd hws hsp]
    rcases hc with h | h <;> subst h <;>
      simp [navegar, Sala.direita, Sala.ehNulo, Estado.imprimir, Sala.nome]
  · rw [iteracao_escolha fuel mansao.esquerda.direita ws resto 100 saida vis (by decide)
      (by decide) hws (by decide)]
    have hd : mansao.esquerda.direita.direita.ehNulo = true := by decide
    have hout : [Evento.localizacao, Evento.nomeSala (cstr mansao.esquerda.direita.nome)]
        ++ opcoes mansao.esquerda.direita =
        [Evento.localizacao, Evento.nomeSala (literal "Quarto Principal"),
          Evento.escolhaCaminho, Evento.opcaoEsquerda (literal "Banheiro (Secreta)"),
          Evento.opcaoSair, Evento.pedido] := by decide
    simp only [List.append_assoc] at hout ⊢
    rw [hout]
    simp [navegar, hd, Estado.imprimir]

/-- C7, at "Quarto Principal" in the tree of `main`: its right child is absent,
its left child present, and `d` prints the path-unavailable message and leaves
the position at "Quarto Principal". -/
theorem caminho_ausente_mantem_posicao_witness :
    cstr mansao.esquerda.direita.nome = literal "Quarto Principal"
    ∧ mansao.esquerda.direita.direita = Sala.nulo
    ∧ mansao.esquerda.direita.esquerda = comodo "Banheiro (Secreta)"
    ∧ iteracao 0 ⟨mansao.esquerda.direita, [100], [], [mansao.esquerda.direita]⟩ =
        some (Passo.continua ⟨mansao.esquerda.direita, [],
          [Evento.localizacao, Evento.nomeSala (literal "Quarto Principal"),
            Evento.escolhaCaminho, Evento.opcaoEsquerda (literal "Banheiro (Secreta)"),
            Evento.opcaoSair, Evento.pedido, Evento.indisponivel],
          [mansao.esquerda.direita]⟩) :=
  ⟨by decide, by decide, by decide,
    (caminho_ausente_mantem_posicao 0 mansao.esquerda.direita.nome
      (comodo "Banheiro (Secreta)") [] [] 100 [] [mansao.esquerda.direita]
      (by decide) (by decide)).2.1 (Or.inl rfl)⟩

/-- C9: at a room both of whose children are absent, the Explorer prints the
location and the room name, prints the end-of-exploration message and returns,
leaving the whole input unread, whatever the input is. -/
theorem folha_encerra_sem_ler (fuel : Nat) (nome : List Nat) (entrada : List Nat)
    (saida : List Evento) (vis : List Sala) :
    iteracao fuel ⟨Sala.no nome Sala.nulo Sala.nulo, entrada, saida, vis⟩ =
      some (Passo.termina Fim.folha ⟨Sala.no nome Sala.nulo Sala.nulo, entrada,
        saida ++ [Evento.localizacao, Evento.nomeSala (cstr nome), Evento.semCaminhos,
          Evento.fimExploracao], vis⟩)
    ∧ explorarSalas (fuel + 1) (Sala.no nome Sala.nulo Sala.nulo) entrada =
      some (Fim.folha, ⟨Sala.no nome Sala.nulo Sala.nulo, entrada,
        [Evento.localizacao, Evento.nomeSala (cstr nome), Evento.semCaminhos,
          Evento.fimExploracao], [Sala.no nome Sala.nulo Sala.nulo]⟩)
    ∧ explorarSalas (fuel + 1) (Sala.no nome Sala.nulo Sala.nulo) [] =
      some (Fim.folha, ⟨Sala.no nome Sala.nulo Sala.nulo, [],
        [Evento.localizacao, Evento.nomeSala (cstr nome), Evento.semCaminhos,
          Evento.fimExploracao], [Sala.no nome Sala.nulo Sala.nulo]⟩) := by
  refine ⟨?_, ?_, ?_⟩ <;>
    simp [explorarSalas, inicio, explorarSalasDe, iteracao, Estado.imprimir, Sala.ehNulo,
      Sala.esquerda, Sala.direita, Sala.nome]

/-- C10 (as stated, refuted): at the root of the tree of `main`, a space
followed by `s` is read without any invalid-choice message, and the session
ends instead of staying at the same position. -/
theorem espaco_nao_e_escolha_invalida :
    ∃ e, iteracao 0 (inicio mansao [32, 115]) = some (Passo.termina Fim.sair e)
      ∧ Evento.invalida ∉ e.saida ∧ e.entrada = [] :=
  ⟨_, rfl, by decide, rfl⟩

/-- C10 (amended): at any room with a child, a byte that is not white space
and is none of `e`, `E`, `d`, `D`, `s`, `S` is read as the choice, the
invalid-choice message is printed and `sala_atual`, and the trace, stay
unchanged; white space before it is skipped without a message. -/
theorem escolha_invalida_mantem_posicao (fuel : Nat) (s : Sala) (ws resto : List Nat)
    (c : Nat) (saida : List Evento) (vis : List Sala)
    (hn : s.ehNulo = false) (hf : s.ehFolha = false)
    (hws : ws.all isspace = true) (hsp : isspace c = false)
    (hc : c ∉ [101, 69, 100, 68, 115, 83]) :
    iteracao fuel ⟨s, ws ++ c :: resto, saida, vis⟩ =
      some (Passo.continua ⟨s, resto,
        saida ++ [Evento.localizacao, Evento.nomeSala (cstr s.nome)] ++ opcoes s
          ++ [Evento.invalida], vis⟩) := by
  rw [iteracao_escolha fuel s ws resto c saida vis hn hf hws hsp]
  simp only [List.mem_cons, List.mem_singleton, List.not_mem_nil, or_false, not_or] at hc
  obtain ⟨h1, h2, h3, h4, h5, h6⟩ := hc
  simp [navegar, h1, h2, h3, h4, h5, h6, Estado.imprimir]

/-- C10, at the root of the tree of `main` with the input newline, `x`, `e`. -/
theorem escolha_invalida_mantem_posicao_witness :
    iteracao 0 ⟨mansao, [10] ++ 120 :: [101], [], [mansao]⟩ =
      some (Passo.continua ⟨mansao, [101],
        [] ++ [Evento.localizacao, Evento.nomeSala (cstr mansao.nome)] ++ opcoes mansao
          ++ [Evento.invalida], [mansao]⟩) :=
  escolha_invalida_mantem_posicao 0 mansao [10] [101] 120 [] [mansao]
    (by decide) (by decide) (by decide) (by decide) (by decide)

/-- C11: on the tree of `main` with every allocation succeeding, the input
`d`, `d`, `s` makes the positions Hall de Entrada, Biblioteca, Escritório in
that order; the session ends through the quit command at Escritório, which is
not a leaf; `liberarMansao` then releases the ten rooms of the tree, and `main`
returns 0. -/
theorem sessao_direita_direita_sair (fuel : Nat) (resto : List Nat) :
    (main (fun _ => true) (fuel + 3) (100 :: 100 :: 115 :: resto)).map
        (fun x => (x.status, x.hall_entrada, x.exploracao.map resumo, x.entrada, x.liberadas))
      = some (0, mansao,
          some (Fim.sair, mansao.direita.direita,
            [mansao, mansao.direita, mansao.direita.direita]),
          resto, posOrdem mansao)
    ∧ [mansao, mansao.direita, mansao.direita.direita].map (fun s => cstr s.nome)
        = [literal "Hall de Entrada", literal "Biblioteca", literal "Escritório"]
    ∧ mansao.direita.direita.ehFolha = false
    ∧ (posOrdem mansao).map (fun s => cstr s.nome)
        = [literal "Cozinha", literal "Banheiro (Secreta)", literal "Quarto Principal",
           literal "Sala de Estar", literal "Jardim de Inverno",
           literal "Porão (Fim do Jogo)", literal "Sótão", literal "Escritório",
           literal "Biblioteca", literal "Hall de Entrada"]
    ∧ (posOrdem mansao).Perm mansao.salas
    ∧ (main (fun _ => true) (fuel + 3)
          (100 :: 10 :: 100 :: 10 :: 115 :: 10 :: resto)).map
        (fun x => (x.status, x.exploracao.map resumo, x.entrada, x.liberadas))
      = some (0,
          some (Fim.sair, mansao.direita.direita,
            [mansao, mansao.direita, mansao.direita.direita]),
          10 :: resto, posOrdem mansao) := by
  refine ⟨rfl, by decide, by decide, by decide, perm_posOrdem 0 mansao, rfl⟩

/-- C12: `liberarMansao` passes to `free` the rooms of the tree in post-order
(the whole left subtree, then the whole right subtree, then the room itself),
after whatever was released before; the released rooms are as many as the
rooms of the tree and are, counted with multiplicity, exactly the rooms of the
tree; on an absent root nothing is released. -/
theorem liberarMansao_pos_ordem (raiz : Sala) (livres : List Sala) :
    liberarMansao raiz livres = livres ++ posOrdem raiz
    ∧ (liberarMansao raiz []).length = raiz.tamanho
    ∧ (liberarMansao raiz []).Perm raiz.salas
    ∧ (∀ s, (liberarMansao raiz []).count s = raiz.salas.count s)
    ∧ liberarMansao Sala.nulo livres = livres
    ∧ (∀ n e d, liberarMansao (Sala.no n e d) [] =
        liberarMansao e [] ++ liberarMansao d [] ++ [Sala.no n e d]) := by
  have hp : (liberarMansao raiz []).Perm raiz.salas := by
    rw [liberarMansao_eq]
    simpa [Sala.salas] using perm_posOrdem 0 raiz
  refine ⟨liberarMansao_eq raiz livres, ?_, hp, fun s => hp.count_eq s, rfl, ?_⟩
  · rw [liberarMansao_eq]
    simpa using length_posOrdem raiz
  · intro n e d
    simp [liberarMansao_eq, posOrdem]

/-- C13: when `explorarSalas`, started at a room, returns, it does so for one
of two reasons only: the position is a leaf, and the last messages printed are
the end-of-exploration ones; or the last byte read was `s` or `S`, and the last
message printed is the quit one. It never returns through the loop condition,
and it never returns at a room that has a child unless a quit command was
read. -/
theorem retorna_so_em_folha_ou_sair (fuel : Nat) (e : Estado) (f : Fim) (r : Estado)
    (hn : e.sala_atual.ehNulo = false) (h : explorarSalasDe fuel e = some (f, r)) :
    ((f = Fim.folha ∧ r.sala_atual.ehFolha = true
        ∧ ∃ o, r.saida = o ++ [Evento.semCaminhos, Evento.fimExploracao])
      ∨ (f = Fim.sair
        ∧ (∃ lidos c, e.entrada = lidos ++ c :: r.entrada ∧ (c = 115 ∨ c = 83))
        ∧ ∃ o, r.saida = o ++ [Evento.saiu]))
    ∧ f ≠ Fim.nulo
    ∧ (r.sala_atual.ehFolha = false → f = Fim.sair) := by
  have key : (f = Fim.folha ∧ r.sala_atual.ehFolha = true
        ∧ ∃ o, r.saida = o ++ [Evento.semCaminhos, Evento.fimExploracao])
      ∨ (f = Fim.sair
        ∧ (∃ lidos c, e.entrada = lidos ++ c :: r.entrada ∧ (c = 115 ∨ c = 83))
        ∧ ∃ o, r.saida = o ++ [Evento.saiu]) := by
    induction fuel generalizing e with
    | zero => simp [explorarSalasDe] at h
    | succ n ih =>
      obtain ⟨s, entrada, saida, vis⟩ := e
      simp only at hn
      rw [explorarSalasDe_succ n _ hn] at h
      rcases iteracao_casos n s entrada saida vis hn with
        ⟨hf, hit⟩ | ⟨hf, ws, c, resto, hent, hws, hc, hit⟩ | ⟨hf, hws, hit⟩
      · rw [hit] at h
        simp only [Option.some.injEq, Prod.mk.injEq] at h
        obtain ⟨h1, h2⟩ := h
        subst h1 h2
        exact Or.inl ⟨rfl, hf,
          ⟨saida ++ [Evento.localizacao, Evento.nomeSala (cstr s.nome)], by simp⟩⟩
      · rw [hit] at h
        rcases navegar_casos c ⟨s, resto,
            saida ++ [Evento.localizacao, Evento.nomeSala (cstr s.nome)] ++ opcoes s, vis⟩ with
          ⟨filho, hfilho, hnav⟩ | ⟨ev, hnav⟩ | ⟨hcs, hnav⟩
        · rw [hnav] at h
          simp only at h
          rcases ih _ hfilho.1 h with h1 | ⟨h1, ⟨lidos, c1, h2, h3⟩, h4⟩
          · exact Or.inl h1
          · refine Or.inr ⟨h1, ⟨ws ++ c :: lidos, c1, ?_, h3⟩, h4⟩
            simp only [Estado.mover] at h2
            simp [hent, h2]
        · rw [hnav] at h
          simp only at h
          rcases ih _ hn h with h1 | ⟨h1, ⟨lidos, c1, h2, h3⟩, h4⟩
          · exact Or.inl h1
          · refine Or.inr ⟨h1, ⟨ws ++ c :: lidos, c1, ?_, h3⟩, h4⟩
            simp only [Estado.imprimir] at h2
            simp [hent, h2]
        · rw [hnav] at h
          simp only [Option.some.injEq, Prod.mk.injEq] at h
          obtain ⟨h1, h2⟩ := h
          subst h1 h2
          exact Or.inr ⟨rfl, ⟨ws, c, by simp [hent, Estado.imprimir], hcs⟩,
            ⟨saida ++ [Evento.localizacao, Evento.nomeSala (cstr s.nome)] ++ opcoes s,
              by simp [Estado.imprimir]⟩⟩
      · rw [hit] at h
        simp at h
  refine ⟨key, ?_, ?_⟩
  · rcases key with h1 | h1 <;> rw [h1.1] <;> decide
  · intro hnf
    rcases key with h1 | h1
    · rw [h1.2.1] at hnf
      simp at hnf
    · exact h1.1

/-- C13, on the tree of `main`: the input `d`, `s` ends at "Biblioteca", which
has children, through the quit command. -/
theorem retorna_so_em_folha_ou_sair_witness :
    explorarSalas 2 mansao [100, 115] =
        some (Fim.sair, ⟨mansao.direita, [],
          [Evento.localizacao, Evento.nomeSala (literal "Hall de Entrada"),
            Evento.escolhaCaminho, Evento.opcaoEsquerda (literal "Sala de Estar"),
            Evento.opcaoDireita (literal "Biblioteca"), Evento.opcaoSair, Evento.pedido,
            Evento.localizacao, Evento.nomeSala (literal "Biblioteca"),
            Evento.escolhaCaminho, Evento.opcaoEsquerda (literal "Jardim de Inverno"),
            Evento.opcaoDireita (literal "Escritório"), Evento.opcaoSair, Evento.pedido,
            Evento.saiu], [mansao, mansao.direita]⟩)
    ∧ (mansao.direita.ehFolha = false → Fim.sair = Fim.sair) :=
  ⟨rfl,
   (retorna_so_em_folha_ou_sair 2 (inicio mansao [100, 115]) Fim.sair
      ⟨mansao.direita, [],
        [Evento.localizacao, Evento.nomeSala (literal "Hall de Entrada"),
          Evento.escolhaCaminho, Evento.opcaoEsquerda (literal "Sala de Estar"),
          Evento.opcaoDireita (literal "Biblioteca"), Evento.opcaoSair, Evento.pedido,
          Evento.localizacao, Evento.nomeSala (literal "Biblioteca"),
          Evento.escolhaCaminho, Evento.opcaoEsquerda (literal "Jardim de Inverno"),
          Evento.opcaoDireita (literal "Escritório"), Evento.opcaoSair, Evento.pedido,
          Evento.saiu], [mansao, mansao.direita]⟩ (by decide) rfl).2.2⟩

/-- C14: when the allocation of the root fails, `main` returns 1 having made
the one `criarSala` call of the root, without calling `explorarSalas` and with
the input untouched, whatever the fuel; when it succeeds and `explorarSalas`
returns on the tree built, `main` returns 0 (and when `explorarSalas` does not
return, neither does `main`). -/
theorem main_status (aloc : Nat → Bool) (fuel : Nat) (entrada : List Nat) :
    (aloc 0 = false →
      main aloc fuel entrada =
        some { status := 1, chamadas := [⟨literal "Hall de Entrada", false, none⟩],
               hall_entrada := Sala.nulo, exploracao := none, entrada := entrada,
               liberadas := [] })
    ∧ (aloc 0 = true → ∀ r, explorarSalas fuel (montarMansao aloc) entrada = some r →
        ∃ x, main aloc fuel entrada = some x ∧ x.status = 0 ∧ x.exploracao = some r
          ∧ x.hall_entrada = montarMansao aloc)
    ∧ (aloc 0 = true → explorarSalas fuel (montarMansao aloc) entrada = none →
        main aloc fuel entrada = none) := by
  refine ⟨?_, ?_, ?_⟩
  · intro h
    simp [main, montarComRegistro_raiz_falha aloc h, Sala.ehNulo]
  · intro h r hr
    have hn := montarComRegistro_raiz_nao_nula aloc h
    have hfst := montarComRegistro_fst aloc
    rw [← hfst] at hr
    refine ⟨{ status := 0, chamadas := (montarComRegistro aloc).2,
              hall_entrada := (montarComRegistro aloc).1, exploracao := some r,
              entrada := r.2.entrada,
              liberadas := liberarMansao (montarComRegistro aloc).1 [] }, ?_, rfl, rfl, hfst⟩
    simp only [main, hn, hr]
    simp
  · intro h hr
    have hn := montarComRegistro_raiz_nao_nula aloc h
    rw [← montarComRegistro_fst aloc] at hr
    simp only [main, hn, hr]
    simp

/-- C14, with every allocation failing and the input `s`, and with every
allocation succeeding and the input `s`. -/
theorem main_status_witness :
    main (fun _ => false) 0 [115] =
        some { status := 1, chamadas := [⟨literal "Hall de Entrada", false, none⟩],
               hall_entrada := Sala.nulo, exploracao := none, entrada := [115],
               liberadas := [] }
    ∧ ∃ x, main (fun _ => true) 1 [115] = some x ∧ x.status = 0
        ∧ x.exploracao = some (Fim.sair, ⟨mansao, [],
            [Evento.localizacao, Evento.nomeSala (literal "Hall de Entrada"),
              Evento.escolhaCaminho, Evento.opcaoEsquerda (literal "Sala de Estar"),
              Evento.opcaoDireita (literal "Biblioteca"), Evento.opcaoSair, Evento.pedido,
              Evento.saiu], [mansao]⟩)
        ∧ x.hall_entrada = montarMansao (fun _ => true) :=
  ⟨(main_status (fun _ => false) 0 [115]).1 rfl,
   (main_status (fun _ => true) 1 [115]).2.1 rfl _ rfl⟩

/-- C15: in a session started at a room, the positions only go down. At every
point of the session, whether or not it ever returns, and in the final state
when it returns, the sequence of positions starts at the root, goes at each
change from a room to one of its own children, never repeats a room, has its
entry of index `i` at depth `i` of the tree, and ends at the current
position; so the changes of position are at most the height of the tree, and
at most 3 on the tree of `main`. -/
theorem posicoes_so_descem (fuel : Nat) (sala : Sala) (entrada : List Nat)
    (hn : sala.ehNulo = false) :
    (∀ n e, aposIteracoes fuel n (inicio sala entrada) = some e →
      Descida sala e.visitadas ∧ e.visitadas.getLast? = some e.sala_atual
      ∧ e.visitadas.length - 1 ≤ sala.niveis - 1)
    ∧ (∀ f r, explorarSalas fuel sala entrada = some (f, r) →
      Descida sala r.visitadas ∧ r.visitadas.getLast? = some r.sala_atual
      ∧ r.visitadas.length - 1 ≤ sala.niveis - 1)
    ∧ (∀ f r, explorarSalas fuel mansao entrada = some (f, r) → r.visitadas.length - 1 ≤ 3)
    ∧ (∀ n e, aposIteracoes fuel n (inicio mansao entrada) = some e →
        e.visitadas.length - 1 ≤ 3) := by
  have hm : mansao.ehNulo = false := by decide
  have hniv : mansao.niveis = 4 := by decide
  have fim : ∀ (raiz : Sala) (r : Estado), raiz.ehNulo = false →
      r.visitadas.head? = some raiz ∧ r.visitadas.getLast? = some r.sala_atual
        ∧ List.Chain' ehFilho r.visitadas →
      Descida raiz r.visitadas ∧ r.visitadas.getLast? = some r.sala_atual
        ∧ r.visitadas.length - 1 ≤ raiz.niveis - 1 := by
    intro raiz r hr hi
    have hd := descida_de_cadeia raiz r.visitadas hr hi.1 hi.2.2
    refine ⟨hd, hi.2.1, ?_⟩
    have := hd.2.2.2.2
    omega
  have hap : ∀ (raiz : Sala), raiz.ehNulo = false → ∀ n e,
      aposIteracoes fuel n (inicio raiz entrada) = some e →
      Descida raiz e.visitadas ∧ e.visitadas.getLast? = some e.sala_atual
        ∧ e.visitadas.length - 1 ≤ raiz.niveis - 1 := by
    intro raiz hr n e h
    exact fim raiz e hr
      (aposIteracoes_cadeia fuel n (inicio raiz entrada) raiz e hr rfl rfl
        (List.chain'_singleton _) h)
  have hex : ∀ (raiz : Sala), raiz.ehNulo = false → ∀ f r,
      explorarSalas fuel raiz entrada = some (f, r) →
      Descida raiz r.visitadas ∧ r.visitadas.getLast? = some r.sala_atual
        ∧ r.visitadas.length - 1 ≤ raiz.niveis - 1 := by
    intro raiz hr f r h
    exact fim raiz r hr
      (explorarSalasDe_cadeia fuel (inicio raiz entrada) raiz f r hr rfl rfl
        (List.chain'_singleton _) h)
  refine ⟨hap sala hn, hex sala hn, ?_, ?_⟩
  · intro f r h
    have := (hex mansao hm f r h).2.2
    rw [hniv] at this
    exact this
  · intro n e h
    have := (hap mansao hm n e h).2.2
    rw [hniv] at this
    exact this

/-- C15, on the tree of `main` with the input `e`, `d`, `e`: the positions are
Hall de Entrada, Sala de Estar, Quarto Principal, Banheiro (Secreta), three
changes of position. -/
theorem posicoes_so_descem_witness :
    (explorarSalas 4 mansao [101, 100, 101]).map (fun r => (r.1, r.2.visitadas))
        = some (Fim.folha,
            [mansao, mansao.esquerda, mansao.esquerda.direita,
              mansao.esquerda.direita.esquerda])
    ∧ Descida mansao
        [mansao, mansao.esquerda, mansao.esquerda.direita, mansao.esquerda.direita.esquerda] :=
  ⟨rfl,
   ((posicoes_so_descem 4 mansao [101, 100, 101] (by decide)).2.1 Fim.folha
      ⟨mansao.esquerda.direita.esquerda, [],
        [Evento.localizacao, Evento.nomeSala (literal "Hall de Entrada"),
          Evento.escolhaCaminho, Evento.opcaoEsquerda (literal "Sala de Estar"),
          Evento.opcaoDireita (literal "Biblioteca"), Evento.opcaoSair, Evento.pedido,
          Evento.localizacao, Evento.nomeSala (literal "Sala de Estar"),
          Evento.escolhaCaminho, Evento.opcaoEsquerda (literal "Cozinha"),
          Evento.opcaoDireita (literal "Quarto Principal"), Evento.opcaoSair, Evento.pedido,
          Evento.localizacao, Evento.nomeSala (literal "Quarto Principal"),
          Evento.escolhaCaminho, Evento.opcaoEsquerda (literal "Banheiro (Secreta)"),
          Evento.opcaoSair, Evento.pedido,
          Evento.localizacao, Evento.nomeSala (literal "Banheiro (Secreta)"),
          Evento.semCaminhos, Evento.fimExploracao],
        [mansao, mansao.esquerda, mansao.esquerda.direita,
          mansao.esquerda.direita.esquerda]⟩ rfl).1⟩

/-- C16: at a room whose left child is present, `e` or `E` (after any white
space) moves the position to exactly that left child; at a room whose right
child is present, `d` or `D` moves it to exactly that right child; the
upper-case byte has the same effect as the lower-case one. -/
theorem comando_move_para_o_filho (fuel : Nat) (s : Sala) (ws resto : List Nat)
    (saida : List Evento) (vis : List Sala) (hws : ws.all isspace = true) :
    (s.esquerda.ehNulo = false → ∀ c, c = 101 ∨ c = 69 →
      iteracao fuel ⟨s, ws ++ c :: resto, saida, vis⟩ =
        some (Passo.continua ⟨s.esquerda, resto,
          saida ++ [Evento.localizacao, Evento.nomeSala (cstr s.nome)] ++ opcoes s,
          vis ++ [s.esquerda]⟩))
    ∧ (s.direita.ehNulo = false → ∀ c, c = 100 ∨ c = 68 →
      iteracao fuel ⟨s, ws ++ c :: resto, saida, vis⟩ =
        some (Passo.continua ⟨s.direita, resto,
          saida ++ [Evento.localizacao, Evento.nomeSala (cstr s.nome)] ++ opcoes s,
          vis ++ [s.direita]⟩))
    ∧ (∀ e0 : Estado, navegar 69 e0 = navegar 101 e0 ∧ navegar 68 e0 = navegar 100 e0) := by
  refine ⟨?_, ?_, ?_⟩
  · intro he c hc
    have hn : s.ehNulo = false := by
      cases s with
      | nulo => simp [Sala.esquerda, Sala.ehNulo] at he
      | no n a b => rfl
    have hf : s.ehFolha = false := by
      cases s with
      | nulo => rfl
      | no n a b => cases a <;> simp_all [Sala.ehFolha, Sala.esquerda, Sala.ehNulo]
    have hsp : isspace c = false := by rcases hc with h | h <;> subst h <;> decide
    rw [iteracao_escolha fuel s ws resto c saida vis hn hf hws hsp]
    rcases hc with h | h <;> subst h <;> simp [navegar, he, Estado.mover]
  · intro hd c hc
    have hn : s.ehNulo = false := by
      cases s with
      | nulo => simp [Sala.direita, Sala.ehNulo] at hd
      | no n a b => rfl
    have hf : s.ehFolha = false := by
      cases s with
      | nulo => rfl
      | no n a b => cases a <;> cases b <;> simp_all [Sala.ehFolha, Sala.direita, Sala.ehNulo]
    have hsp : isspace c = false := by rcases hc with h | h <;> subst h <;> decide
    rw [iteracao_escolha fuel s ws resto c saida vis hn hf hws hsp]
    rcases hc with h | h <;> subst h <;> simp [navegar, hd, Estado.mover]
  · intro e0
    simp [navegar]

/-- C16, at the root of the tree of `main`: `E` moves to "Sala de Estar" and
`D` to "Biblioteca". -/
theorem comando_move_para_o_filho_witness :
    iteracao 0 ⟨mansao, [10] ++ 69 :: [115], [], [mansao]⟩ =
        some (Passo.continua ⟨mansao.esquerda, [115],
          [] ++ [Evento.localizacao, Evento.nomeSala (cstr mansao.nome)] ++ opcoes mansao,
          [mansao] ++ [mansao.esquerda]⟩)
    ∧ iteracao 0 ⟨mansao, [10] ++ 68 :: [115], [], [mansao]⟩ =
        some (Passo.continua ⟨mansao.direita, [115],
          [] ++ [Evento.localizacao, Evento.nomeSala (cstr mansao.nome)] ++ opcoes mansao,
          [mansao] ++ [mansao.direita]⟩)
    ∧ cstr mansao.esquerda.nome = literal "Sala de Estar"
    ∧ cstr mansao.direita.nome = literal "Biblioteca" :=
  ⟨(comando_move_para_o_filho 0 mansao [10] [115] [] [mansao] (by decide)).1
      (by decide) 69 (Or.inr rfl),
   (comando_move_para_o_filho 0 mansao [10] [115] [] [mansao] (by decide)).2.1
      (by decide) 68 (Or.inr rfl),
   by decide, by decide⟩

/-- C17: when the allocation of the root succeeds, whatever the other
allocations do, `main` stores every `criarSala` result through a pointer that
is not null; the link of a room whose allocation failed stays null; the tree
built is the tree of the all-success run with the subtrees under the failed
rooms removed; the rooms created are exactly the rooms of that pruned tree,
none beneath a failed one; and `main` goes on to call `explorarSalas` on it,
returning 0 when that call returns. -/
theorem falha_poda_o_ramo (aloc : Nat → Bool) (fuel : Nat) (entrada : List Nat)
    (h : aloc 0 = true) :
    montarMansao aloc = podar aloc [] mansao
    ∧ (montarComRegistro aloc).1 = podar aloc [] mansao
    ∧ (∀ c ∈ (montarComRegistro aloc).2, c.pai ≠ some Sala.nulo)
    ∧ (∀ caminho k, sitioDoCaminho caminho = some k → aloc k = false →
        Sala.seguir caminho (montarMansao aloc) = Sala.nulo)
    ∧ ((montarComRegistro aloc).2.filter (fun c => c.sucesso)).map
        (fun c => criarSala true c.nome_sala)
        = (emNiveis (podar aloc [] mansao)).map Sala.semFilhos
    ∧ ((montarComRegistro aloc).2.filter (fun c => c.sucesso)).length
        = (podar aloc [] mansao).tamanho
    ∧ main aloc fuel entrada =
        (explorarSalas fuel (podar aloc [] mansao) entrada).map
          (fun r => { status := 0, chamadas := (montarComRegistro aloc).2,
                      hall_entrada := podar aloc [] mansao, exploracao := some r,
                      entrada := r.2.entrada,
                      liberadas := posOrdem (podar aloc [] mansao) }) := by
  have hm := montar_arvore aloc h
  have hr := montar_registro aloc h
  have hcri : ((montarComRegistro aloc).2.filter (fun c => c.sucesso)).map
      (fun c => criarSala true c.nome_sala)
      = (emNiveis (podar aloc [] mansao)).map Sala.semFilhos := by
    rw [← hm]; exact hr.2
  refine ⟨by rw [← montarComRegistro_fst, hm], hm, ?_, ?_, hcri, ?_, ?_⟩
  · intro c hc hpai
    have := List.all_eq_true.mp hr.1 c hc
    simp [hpai, Sala.ehNulo] at this
  · intro caminho k hk hak
    rw [← montarComRegistro_fst, hm]
    apply seguir_podar_falhou
    simp [falhou, hk, hak]
  · have hl := congrArg List.length hcri
    simp only [List.length_map] at hl
    rw [hl, (perm_emNiveis _).length_eq, length_posOrdem]
  · rw [main_de_raiz_alocada aloc fuel entrada h, hm]

/-- C17, with the allocation of "Quarto Principal" (call 4) failing: the right
link of "Sala de Estar" is null, the call for "Banheiro (Secreta)" is not made,
the tree has 8 rooms, and `main` returns 0 on the input `s`. -/
theorem falha_poda_o_ramo_witness :
    Sala.seguir [false, true] (montarMansao (fun k => k != 4)) = Sala.nulo
    ∧ (montarMansao (fun k => k != 4)).tamanho = 8
    ∧ ((montarComRegistro (fun k => k != 4)).2.map (fun c => (c.nome_sala, c.sucesso)))
        = [(literal "Hall de Entrada", true), (literal "Sala de Estar", true),
           (literal "Biblioteca", true), (literal "Cozinha", true),
           (literal "Quarto Principal", false), (literal "Jardim de Inverno", true),
           (literal "Escritório", true), (literal "Porão (Fim do Jogo)", true),
           (literal "Sótão", true)]
    ∧ (main (fun k => k != 4) 1 [115]).map (fun x => x.status) = some 0 :=
  ⟨(falha_poda_o_ramo (fun k => k != 4) 1 [115] rfl).2.2.2.1 [false, true] 4 rfl rfl,
   by decide, by decide, by decide⟩

/-- C18: deleting from the input every byte that is not one of `e`, `E`, `d`,
`D`, `s`, `S` does not change the session. The session returns on the filtered
input exactly when it returns on the original one, and then in the same way
(leaf or quit), at the same position and with the same sequence of positions;
it never returns on the one exactly when it never returns on the other; the
positions and sequences of positions it gets to on the way are the same,
whether or not it returns; and what it returns with does not depend on the
fuel. -/
theorem filtrar_nao_muda_a_sessao (sala : Sala) (entrada : List Nat) :
    (∀ x, (∃ fuel, (explorarSalas fuel sala entrada).map resumo = some x)
        ↔ (∃ fuel, (explorarSalas fuel sala (filtrar entrada)).map resumo = some x))
    ∧ ((∀ fuel, explorarSalas fuel sala entrada = none)
        ↔ (∀ fuel, explorarSalas fuel sala (filtrar entrada) = none))
    ∧ (∀ p, alcanca (inicio sala entrada) p ↔ alcanca (inicio sala (filtrar entrada)) p)
    ∧ (∀ f1 f2 r1 r2, explorarSalas f1 sala entrada = some r1 →
        explorarSalas f2 sala entrada = some r2 → r1 = r2) := by
  have h1 : ∀ x, (∃ fuel, (explorarSalas fuel sala entrada).map resumo = some x)
      ↔ (∃ fuel, (explorarSalas fuel sala (filtrar entrada)).map resumo = some x) :=
    fun x => terminaCom_filtrar entrada sala [] [] [sala] x
  refine ⟨h1, ?_, fun p => alcanca_filtrar entrada sala [] [] [sala] p, ?_⟩
  · constructor
    · intro h fuel
      cases hr : explorarSalas fuel sala (filtrar entrada) with
      | none => rfl
      | some r =>
        obtain ⟨f2, h2⟩ := (h1 (resumo r)).mpr ⟨fuel, by rw [hr]; rfl⟩
        rw [h f2] at h2
        simp at h2
    · intro h fuel
      cases hr : explorarSalas fuel sala entrada with
      | none => rfl
      | some r =>
        obtain ⟨f2, h2⟩ := (h1 (resumo r)).mp ⟨fuel, by rw [hr]; rfl⟩
        rw [h f2] at h2
        simp at h2
  · intro f1 f2 r1 r2 hr1 hr2
    have ha := explorarSalasDe_mono f1 (max f1 f2) _ r1 (le_max_left _ _) hr1
    have hb := explorarSalasDe_mono f2 (max f1 f2) _ r2 (le_max_right _ _) hr2
    rw [ha] at hb
    exact Option.some.inj hb

/-- C19: when the allocation of the root succeeds and `main` returns, the rooms
passed to `free` are, each once, the rooms that `criarSala` allocated (a room
being told by the state in which `criarSala` returned it): every allocated room
is in the tree, the released rooms are the rooms of the tree in post-order, and
the number of releases equals the number of successful allocations. -/
theorem liberadas_sao_as_alocadas (aloc : Nat → Bool) (fuel : Nat) (entrada : List Nat)
    (x : Execucao) (h : aloc 0 = true) (hx : main aloc fuel entrada = some x) :
    x.liberadas.length = (x.chamadas.filter (fun c => c.sucesso)).length
    ∧ (x.liberadas.map Sala.semFilhos).Perm
        ((x.chamadas.filter (fun c => c.sucesso)).map (fun c => criarSala true c.nome_sala))
    ∧ (∀ c ∈ x.chamadas, c.sucesso = true →
        criarSala true c.nome_sala ∈ x.hall_entrada.salas.map Sala.semFilhos)
    ∧ x.liberadas.Perm x.hall_entrada.salas
    ∧ x.liberadas = posOrdem x.hall_entrada
    ∧ x.liberadas.length = x.hall_entrada.tamanho := by
  rw [main_de_raiz_alocada aloc fuel entrada h] at hx
  cases hr : explorarSalas fuel (montarComRegistro aloc).1 entrada with
  | none => simp [hr] at hx
  | some r =>
    simp only [hr, Option.map_some', Option.some.injEq] at hx
    subst hx
    have hreg := (montar_registro aloc h).2
    have hperm : ((posOrdem (montarComRegistro aloc).1).map Sala.semFilhos).Perm
        (((montarComRegistro aloc).2.filter (fun c => c.sucesso)).map
          (fun c => criarSala true c.nome_sala)) := by
      rw [hreg]
      exact ((perm_emNiveis _).map _).symm
    have hsalas : (posOrdem (montarComRegistro aloc).1).Perm (montarComRegistro aloc).1.salas :=
      perm_posOrdem 0 _
    refine ⟨?_, hperm, ?_, hsalas, rfl, length_posOrdem _⟩
    · have := hperm.length_eq
      simpa using this
    · intro c hc hs
      have h1 : criarSala true c.nome_sala ∈
          ((montarComRegistro aloc).2.filter (fun c => c.sucesso)).map
            (fun c => criarSala true c.nome_sala) :=
        List.mem_map.mpr ⟨c, List.mem_filter.mpr ⟨hc, hs⟩, rfl⟩
      exact (hsalas.map _).mem_iff.mp (hperm.mem_iff.mpr h1)

/-- C19, with the allocations of "Cozinha" and "Escritório" failing and the
input `s`: six rooms are allocated and six are released. -/
theorem liberadas_sao_as_alocadas_witness :
    ∃ x, main (fun k => k != 3 && k != 6) 1 [115] = some x
      ∧ x.liberadas.length = (x.chamadas.filter (fun c => c.sucesso)).length
      ∧ x.liberadas.length = 6
      ∧ x.chamadas.length = 8 :=
  ⟨_, rfl,
    (liberadas_sao_as_alocadas (fun k => k != 3 && k != 6) 1 [115] _ rfl rfl).1,
    by decide, by decide⟩

end DetectiveQuest
